import Mathlib

/-!
Verification of the hugefs virtual-filesystem engine against its
natural-language specification.

The Rust sources are shallowly embedded: machine bytes become `Nat`
(XOR is `Nat.xor`, which agrees with byte XOR on values < 256),
content hashes become 64-element `List Nat`, fallible code returns
`Except`, and the AES-256-CTR stream cipher is abstracted by its
keystream function `aes key iv : Nat → Nat` (the byte the cipher XORs
at stream position `i`), which is all the encrypted-store code observes
of it.
-/

/-! ## Stream cipher and the encrypting store adapter (src/encrypted_store.rs) -/

/-- A counter-mode cipher state: its keystream (determined by key and
IV at construction time) and the current stream position.
`Aes256Ctr::new(key, iv)` yields position 0. -/
structure CtrCipher where
  ks : Nat → Nat
  pos : Nat

/-- XOR a byte list against the keystream starting at position `p`
(`SyncStreamCipher::apply_keystream` on a buffer). -/
def xorStream (ks : Nat → Nat) : Nat → List Nat → List Nat
  | _, [] => []
  | p, b :: rest => (b ^^^ ks p) :: xorStream ks (p + 1) rest

/-- `cipher.apply_keystream(&mut data)`: XOR the data in place and
advance the counter past it. -/
def applyKeystream (c : CtrCipher) (data : List Nat) : List Nat × CtrCipher :=
  (xorStream c.ks c.pos data, { c with pos := c.pos + data.length })

/-- `SyncStreamCipherSeek::seek`: reposition the keystream. -/
def CtrCipher.seek (c : CtrCipher) (p : Nat) : CtrCipher :=
  { c with pos := p }

/-- `EncryptedStore::encrypt_file_hash`: build a cipher whose IV is the
first 16 bytes of the file hash, encrypt the whole hash with it, and
return the encrypted hash together with the cipher (whose counter now
stands past the hash). `aes` abstracts `Aes256Ctr::new`. -/
def encrypt_file_hash (aes : List Nat → List Nat → Nat → Nat) (key : List Nat)
    (file_hash : List Nat) : List Nat × CtrCipher :=
  let iv := file_hash.take 16
  let cipher : CtrCipher := { ks := aes key iv, pos := 0 }
  let r := applyKeystream cipher file_hash
  (r.1, r.2)

/-- Store-level error kinds relevant to `get` (src/error.rs:
`NoSuchHash` and `StorageError`, the spec's IoError). -/
inductive StoreErr where
  | noSuchHash
  | storageError
deriving DecidableEq, Repr

/-- `EncryptedStore::get`: map the plain hash to the encrypted hash,
fetch the raw bytes from the inner store under the encrypted hash,
seek the same cipher to `offset + 64` (the hash is asserted to be 64
bytes long) and XOR the keystream over the fetched bytes. `inner` is
the inner store's `get` as a function of (hash, offset, size). -/
def encryptedGet (aes : List Nat → List Nat → Nat → Nat) (key : List Nat)
    (inner : List Nat → Nat → Nat → Except StoreErr (List Nat))
    (file_hash : List Nat) (offset size : Nat) : Except StoreErr (List Nat) :=
  let r := encrypt_file_hash aes key file_hash
  match inner r.1 offset size with
  | .error e => .error e
  | .ok data =>
    let cipher := r.2.seek (offset + file_hash.length)
    .ok (applyKeystream cipher data).1

/-! ## LocalStore reads (src/local_store.rs) -/

/-- What the underlying filesystem holds at a content-address path:
missing, failing with an I/O error on open, or present with contents. -/
inductive FileOutcome where
  | absent
  | ioErr
  | present (contents : List Nat)

/-- Net effect of the `read_n` loop of src/local_store.rs on a file
with the given contents: after seeking to `pos`, repeated `read` calls
fill the size-`size` buffer until a read returns 0 bytes (EOF), so the
bytes obtained are the file's bytes from `pos`, capped at `size`. -/
def readN (contents : List Nat) (pos size : Nat) : List Nat :=
  (contents.drop pos).take size

/-- `LocalStore::get`: open `ca/<hex-hash>` (the map is keyed by the
hash itself; hex encoding of 64-byte hashes is injective), mapping a
not-found open error to `NoSuchHash` and any other error to
`StorageError`; then positioned-read up to `size` bytes at `offset`
and shrink the buffer to the bytes actually read. -/
def localGet (fs : List Nat → FileOutcome) (file_hash : List Nat)
    (offset size : Nat) : Except StoreErr (List Nat) :=
  match fs file_hash with
  | .absent => .error .noSuchHash
  | .ioErr => .error .storageError
  | .present c => .ok (readN c offset size)

/-! ## LocalStore mutable files: `finish` (src/local_store.rs) -/

/-- The on-disk state of a LocalStore: content-addressed blobs under
`ca/<hex-hash>` (keyed here by the hash value) and temporaries under
`mutable/<id>`. -/
structure LocalFs where
  ca : List Nat → Option (List Nat)
  mutab : String → Option (List Nat)

/-- `MutableFile::finish`: read the whole file back, hash it
(`Hash::hash` returns the byte count and the digest, abstracted by
`H`), then promote: if `ca/<hex-hash>` already exists remove the
temporary, otherwise rename the temporary to `ca/<hex-hash>`. The
handle's file is the temporary at `id`; if it cannot be read the
operation fails with an I/O error. -/
def mutableFinish (H : List Nat → List Nat) (fs : LocalFs) (id : String) :
    Except StoreErr ((Nat × List Nat) × LocalFs) :=
  match fs.mutab id with
  | none => .error .storageError
  | some buf =>
    let len := buf.length
    let hash := H buf
    if (fs.ca hash).isSome then
      .ok ((len, hash),
        { fs with mutab := fun j => if j = id then none else fs.mutab j })
    else
      .ok ((len, hash),
        { ca := fun h => if h = hash then some buf else fs.ca h,
          mutab := fun j => if j = id then none else fs.mutab j })

/-! ## LocalStore mutable files: the handle's file slot
(src/local_store.rs, `MutableFile`) -/

/-- A LocalStore mutable-file handle: the
`futures::lock::Mutex<Option<tokio::fs::File>>` slot, holding the file
object (identified with its contents) or nothing after an operation
took it out without restoring it. -/
structure MutFileHandle where
  slot : Option (List Nat)

/-- Outcome of a mutable-file operation: either a value or the
`panic!("write handle invalidated by previous write error")` branch. -/
inductive MfOutcome (α : Type) where
  | panicked
  | ok (val : α)

/-- Positioned write: seek to `off` (holes read as zeros) and
overwrite with `data`. -/
def writeAt (f : List Nat) (off : Nat) (data : List Nat) : List Nat :=
  f.take off ++ List.replicate (off - f.length) 0 ++ data ++ f.drop (off + data.length)

/-- `MutableFile::write`: take the file out of the slot, write, and
put it back on success. -/
def mfWrite (h : MutFileHandle) (off : Nat) (data : List Nat) :
    MfOutcome MutFileHandle :=
  match h.slot with
  | some f => .ok { slot := some (writeAt f off data) }
  | none => .panicked

/-- `MutableFile::read`: take the file out of the slot, read, and put
it back. -/
def mfRead (h : MutFileHandle) (off size : Nat) :
    MfOutcome (List Nat × MutFileHandle) :=
  match h.slot with
  | some f => .ok (readN f off size, { slot := some f })
  | none => .panicked

/-- `MutableFile::finish` as seen from the handle: the file is taken
out of the slot and consumed (read, hashed, promoted) without being
restored. -/
def mfFinish (H : List Nat → List Nat) (h : MutFileHandle) :
    MfOutcome ((Nat × List Nat) × MutFileHandle) :=
  match h.slot with
  | some f => .ok ((f.length, H f), { slot := none })
  | none => .panicked

/-- `MutableFile::set_file_length`: the file is taken out of the slot
and `set_len` is called on it, but — unlike `write` and `read` — the
file object is never stored back into the slot. -/
def mfSetFileLength (h : MutFileHandle) (_length : Nat) :
    MfOutcome MutFileHandle :=
  match h.slot with
  | some _ => .ok { slot := none }
  | none => .panicked

/-! ## FUSE engine (src/fusefs.rs), with errors mapped to kernel codes
as in src/fuse_util.rs -/

/-- Kernel error codes produced by the engine. -/
inductive Errno where
  | ENOENT
  | EEXIST
  | ENOTDIR
  | EISDIR
  | ENOTEMPTY
  | EPERM
  | EINVAL
  | ENXIOcode
  | ENOMEDIUM
  | EROFS
  | EIOcode
  | ENOTSUP
  | ENOTCONN
deriving DecidableEq, Repr

/-- src/fuse_util.rs error mapping restricted to store `get` errors:
`NoSuchHash` is ENOMEDIUM, `StorageError` is EIO. -/
def mapStoreErr : StoreErr → Errno
  | .noSuchHash => .ENOMEDIUM
  | .storageError => .EIOcode

/-- Inode payload (src/fs.rs `Contents`). A store-owned mutable file is
identified with its current byte contents. -/
inductive FContents where
  | directory (entries : List (String × Nat))
  | regularFile (length : Nat) (hash : List Nat)
  | symlink (target : String)
  | mutableFile (contents : List Nat)
deriving DecidableEq

/-- Whether an inode payload is a store-owned mutable file. -/
def FContents.isMutable : FContents → Bool
  | .mutableFile _ => true
  | _ => false

/-- src/fs.rs `Inode`. -/
structure FInode where
  ino : Nat
  perm : Nat
  uid : Nat
  gid : Nat
  crtime : Nat
  mtime : Nat
  contents : FContents
deriving DecidableEq

/-- Association-list lookup, the shallow embedding of map lookup. -/
def lookupA {α : Type} (l : List (Nat × α)) (k : Nat) : Option α :=
  (l.find? (fun p => p.1 = k)).map (fun p => p.2)

/-- Replace the value stored under key `k` (no effect if absent). -/
def updateA {α : Type} (l : List (Nat × α)) (k : Nat) (v : α) : List (Nat × α) :=
  l.map (fun p => if p.1 = k then (p.1, v) else p)

/-- Remove the binding of key `k`. -/
def eraseA {α : Type} (l : List (Nat × α)) (k : Nat) : List (Nat × α) :=
  l.filter (fun p => p.1 ≠ k)

/-- `BTreeMap::get` on directory entries. -/
def dirGet (dir : List (String × Nat)) (name : String) : Option Nat :=
  (dir.find? (fun p => p.1 = name)).map (fun p => p.2)

/-- `Directory::check_no_entry` as a Boolean probe. -/
def dirHas (dir : List (String × Nat)) (name : String) : Bool :=
  (dirGet dir name).isSome

/-- `BTreeMap::remove`. -/
def dirRemove (dir : List (String × Nat)) (name : String) : List (String × Nat) :=
  dir.filter (fun p => p.1 ≠ name)

/-- `BTreeMap::insert` (replacing any previous binding). -/
def dirInsert (dir : List (String × Nat)) (name : String) (ino : Nat) :
    List (String × Nat) :=
  dirRemove dir name ++ [(name, ino)]

/-- `Filesystem::rename` (src/fusefs.rs lines 461-500): look up the
source entry, then — both when the two directories coincide and when
they differ — `check_no_entry(new_name)` on the destination, failing
`EntryExists` (EEXIST) whenever the destination name is present; on
success unlink the source name and insert the destination name.
Catalog errors are mapped to kernel codes (`NoSuchInode`→ ENXIO,
`NotDirectory`→ENOTDIR, `NoSuchEntry`→ENOENT). -/
def fusefsRename (inodes : List (Nat × FInode)) (parent_ino : Nat) (name : String)
    (new_parent_ino : Nat) (new_name : String) : Except Errno (List (Nat × FInode)) :=
  match lookupA inodes parent_ino with
  | none => .error .ENXIOcode
  | some parent =>
    match parent.contents with
    | .directory dir =>
      match dirGet dir name with
      | none => .error .ENOENT
      | some ino =>
        if parent_ino = new_parent_ino then
          if dirHas dir new_name then .error .EEXIST
          else
            .ok (updateA inodes parent_ino
              { parent with contents := .directory (dirInsert (dirRemove dir name) new_name ino) })
        else
          match lookupA inodes new_parent_ino with
          | none => .error .ENXIOcode
          | some newParent =>
            match newParent.contents with
            | .directory newDir =>
              if dirHas newDir new_name then .error .EEXIST
              else
                .ok (updateA
                  (updateA inodes parent_ino
                    { parent with contents := .directory (dirRemove dir name) })
                  new_parent_ino
                  { newParent with contents := .directory (dirInsert newDir new_name ino) })
            | _ => .error .ENOTDIR
    | _ => .error .ENOTDIR

/-- Arguments of `Filesystem::setattr` that the engine inspects. -/
structure SetattrArgs where
  mode : Option Nat
  uid : Option Nat
  gid : Option Nat
  size : Option Nat
  mtime : Option Nat
  crtime : Option Nat

/-- `Filesystem::setattr` (src/fusefs.rs lines 240-291): fetch the
inode; if a size is requested, fail ENOTSUP before touching anything
("FIXME: support truncating mutable files"); otherwise apply mode
(masked to 0o7777), uid, gid, mtime and crtime and return the updated
inode. -/
def fusefsSetattr (inodes : List (Nat × FInode)) (ino : Nat) (a : SetattrArgs) :
    Except Errno (List (Nat × FInode) × FInode) :=
  match lookupA inodes ino with
  | none => .error .ENXIOcode
  | some inode =>
    if a.size.isSome then .error .ENOTSUP
    else
      let inode := { inode with perm := (a.mode.map (fun m => m &&& 0o7777)).getD inode.perm }
      let inode := { inode with uid := a.uid.getD inode.uid }
      let inode := { inode with gid := a.gid.getD inode.gid }
      let inode := { inode with mtime := a.mtime.getD inode.mtime }
      let inode := { inode with crtime := a.crtime.getD inode.crtime }
      .ok (updateA inodes ino inode, inode)

/-- An entry of the engine's open-file table. A regular handle records
whether it was opened for writing (set only by `create`) and its
inode number (the code holds the inode by reference; here inodes are
looked up by number). -/
inductive OpenFile where
  | regular (forWriting : Bool) (ino : Nat)
  | directory (ino : Nat) (prevDirEntry : String)
  | control
deriving DecidableEq

/-- Engine state for the handle-table operations: the superblock's
inodes and the open-file table. -/
structure FsState where
  inodes : List (Nat × FInode)
  handles : List (Nat × OpenFile)
deriving DecidableEq

/-- `Filesystem::release` (src/fusefs.rs lines 696-738): remove the
handle (`BadFileHandle`→ ENXIO if absent). For a regular handle opened
for writing whose inode is a mutable file, call `finish` on the
store-owned file — returning its byte count and digest `H` of its
contents — and replace the inode's contents in place with an immutable
`RegularFile(length, hash)`. Handles not opened for writing, and
non-mutable inodes, are dropped without touching the inode. (`finish`'s
effect on the store itself is `mutableFinish` above.) -/
def fusefsRelease (H : List Nat → List Nat) (st : FsState) (fh : Nat) :
    Except Errno FsState :=
  match lookupA st.handles fh with
  | none => .error .ENXIOcode
  | some f =>
    let st1 : FsState := { st with handles := eraseA st.handles fh }
    match f with
    | .regular forWriting ino =>
      if forWriting then
        match lookupA st1.inodes ino with
        | some inode =>
          match inode.contents with
          | .mutableFile c =>
            .ok { st1 with
              inodes := updateA st1.inodes ino
                { inode with contents := .regularFile c.length (H c) } }
          | _ => .ok st1
        | none => .ok st1
      else .ok st1
    | _ => .ok st1

/-- A store's `get` specialised to one call shape: hash, offset, size. -/
abbrev StoreGetFun := List Nat → Nat → Nat → Except StoreErr (List Nat)

/-- The probe loop of `Filesystem::read` for an immutable handle with
no sticky store (src/fusefs.rs lines 594-621): try each store in
order; on success return the data and the store to latch; on
`NoSuchHash` try the next store; on any other error fail EIO; when
every store is exhausted fail ENOMEDIUM. -/
def probeStores (stores : List StoreGetFun) (hash : List Nat) (offset size : Nat) :
    Except Errno (List Nat × StoreGetFun) :=
  match stores with
  | [] => .error .ENOMEDIUM
  | s :: rest =>
    match s hash offset size with
    | .ok data => .ok (data, s)
    | .error .noSuchHash => probeStores rest hash offset size
    | .error .storageError => .error .EIOcode

/-- `Filesystem::read` on an immutable-read handle (src/fusefs.rs
lines 586-621): if the handle's sticky store is set, delegate to it
alone (its errors map through `mapStoreErr`); otherwise probe the
store list and latch the first successful store into the sticky slot.
The result pairs the read's outcome with the handle's sticky slot
after the read. -/
def readImmutable (stores : List StoreGetFun) (sticky : Option StoreGetFun)
    (hash : List Nat) (offset size : Nat) :
    Except Errno (List Nat) × Option StoreGetFun :=
  match sticky with
  | some s =>
    match s hash offset size with
    | .ok data => (.ok data, some s)
    | .error e => (.error (mapStoreErr e), some s)
  | none =>
    match probeStores stores hash offset size with
    | .ok (data, s) => (.ok data, some s)
    | .error e => (.error e, none)

/-! ## SQLite metadata catalog (src/fs_sqlite.rs)

Each public operation runs inside one transaction: on any error
(including a failed `assert_eq!` on an SQL statement's affected-row
count, which aborts before `commit`) the database is left unchanged.
Rows of the `Inodes` table are held in an association list keyed by
inode number (the table's primary key keeps keys unique), rows of
`DirEntries` in a list keyed by (dir, name). Timestamps are
irrelevant to the claims and are created as 0. -/

/-- The `type` column of `Inodes`. -/
inductive SqlFType where
  | mutableRegular
  | immutableRegular
  | directory
  | symlink
deriving DecidableEq, Repr

/-- A row of `Inodes` (the `ptr` payload — mutable-file id or hash —
does not matter to the claims). -/
structure SqlInode where
  ftype : SqlFType
  perm : Nat
  uid : Nat
  gid : Nat
  nlink : Nat
  crtime : Nat
  mtime : Nat
  length : Nat
deriving DecidableEq, Repr

/-- A row of `DirEntries` (the redundant `type` column is omitted). -/
structure DirEnt where
  dir : Nat
  name : String
  target : Nat
deriving DecidableEq, Repr

/-- The catalog database. `nextIno` is SQLite's next rowid. -/
structure SqlFs where
  inodes : List (Nat × SqlInode)
  entries : List DirEnt
  nextIno : Nat
deriving DecidableEq

/-- Catalog-level errors (src/error.rs); `assertFail` stands for a
failed `assert_eq!` on an affected-row count and `fkViolation` for a
foreign-key constraint error, both of which abort the transaction
uncommitted. -/
inductive SqlErr where
  | noSuchInode
  | noSuchEntry
  | entryExists
  | notEmpty
  | notMutableFile
  | assertFail
  | fkViolation
deriving DecidableEq, Repr

/-- `stat`: the `Inodes` row, or `NoSuchInode`. -/
def sqlStat (st : SqlFs) (ino : Nat) : Except SqlErr SqlInode :=
  match lookupA st.inodes ino with
  | some r => .ok r
  | none => .error .noSuchInode

/-- The (dir, name) primary key of a `DirEntries` row. -/
def entKeys (es : List DirEnt) : List (Nat × String) :=
  es.map (fun e => (e.dir, e.name))

/-- The first `DirEntries` row with the given key (the primary key
keeps it unique). -/
def findEnt (es : List DirEnt) (d : Nat) (n : String) : Option DirEnt :=
  es.find? (fun e => e.dir = d && e.name = n)

/-- The number of `DirEntries` rows whose target is the inode `j`. -/
def countTargets (es : List DirEnt) (j : Nat) : Nat :=
  (es.filter (fun e => e.target = j)).length

/-- `get_dir_entry`: the target of the (dir, name) row, if any. -/
def get_dir_entry (st : SqlFs) (parent_ino : Nat) (entry_name : String) : Option Nat :=
  (findEnt st.entries parent_ino entry_name).map (fun e => e.target)

/-- Delete every `DirEntries` row with the given key (the primary key
keeps it unique). -/
def eraseEntry (es : List DirEnt) (d : Nat) (n : String) : List DirEnt :=
  es.filter (fun e => !(e.dir = d && e.name = n))

/-- `insert or replace into DirEntries`: drop any row with the same
(dir, name) key and append the new row. The foreign keys require both
the directory and the target inode to exist. -/
def insertEntry (st : SqlFs) (d : Nat) (n : String) (i : Nat) : Except SqlErr SqlFs :=
  if (lookupA st.inodes d).isSome ∧ (lookupA st.inodes i).isSome then
    .ok { st with entries := eraseEntry st.entries d n ++ [⟨d, n, i⟩] }
  else .error .fkViolation

/-- `inc_nlink`: `update Inodes set nlink = nlink + 1 where ino = ?`,
asserting that exactly one row was updated. -/
def inc_nlink (st : SqlFs) (ino : Nat) : Except SqlErr SqlFs :=
  match lookupA st.inodes ino with
  | some r => .ok { st with inodes := updateA st.inodes ino { r with nlink := r.nlink + 1 } }
  | none => .error .assertFail

/-- `dec_nlink`: `update Inodes set nlink = nlink - 1 where ino = ?
and nlink > 0`, asserting one row updated (zero rows match when the
inode is missing or its link count is already 0), then read the new
count back. -/
def dec_nlink (st : SqlFs) (ino : Nat) : Except SqlErr (Nat × SqlFs) :=
  match lookupA st.inodes ino with
  | some r =>
    if r.nlink = 0 then .error .assertFail
    else .ok (r.nlink - 1,
      { st with inodes := updateA st.inodes ino { r with nlink := r.nlink - 1 } })
  | none => .error .assertFail

/-- `delete_inode`: `delete from Inodes where ino = ?`; a foreign-key
constraint violation (some `DirEntries` row still references the inode
as its directory or its target — for a directory, a remaining child)
surfaces as `NotEmpty`. -/
def delete_inode (st : SqlFs) (ino : Nat) : Except SqlErr SqlFs :=
  if st.entries.any (fun e => e.dir = ino || e.target = ino) then .error .notEmpty
  else if (lookupA st.inodes ino).isSome then
    .ok { st with inodes := eraseA st.inodes ino }
  else .error .assertFail

/-- The `type`-independent part of `NewFileInfo`; `length` is the
initial `length` column (0 for mutable files and directories, the
given length for immutable files, the target's length for symlinks). -/
structure NewFileInfo where
  ftype : SqlFType
  perm : Nat
  uid : Nat
  gid : Nat
  length : Nat

/-- `create_inode`: insert an `Inodes` row with `nlink = 0` at the
next rowid and return it. -/
def create_inode (st : SqlFs) (info : NewFileInfo) : SqlFs × Nat :=
  let ino := st.nextIno
  ({ st with
      inodes := st.inodes ++
        [(ino, { ftype := info.ftype, perm := info.perm, uid := info.uid,
                 gid := info.gid, nlink := 0, crtime := 0, mtime := 0,
                 length := info.length })],
      nextIno := ino + 1 },
   ino)

/-- `link_file` (src/fs_sqlite.rs lines 380-422): if an entry with the
name already exists and binds the same inode, return having changed
nothing; if it exists, binds another inode and `exclusive` is set,
fail `EntryExists`. Otherwise insert-or-replace the entry, increment
the linked inode's count, and, when an entry was replaced, decrement
the previous inode's count and delete it on reaching 0. Returns
whether the entry was written. -/
def link_file (st : SqlFs) (parent_ino : Nat) (exclusive : Bool) (entry_name : String)
    (ino : Nat) : Except SqlErr (SqlFs × Bool) :=
  match get_dir_entry st parent_ino entry_name with
  | some prev_ino =>
    if ino = prev_ino then .ok (st, false)
    else if exclusive then .error .entryExists
    else do
      let st1 ← insertEntry st parent_ino entry_name ino
      let st2 ← inc_nlink st1 ino
      let (k, st3) ← dec_nlink st2 prev_ino
      let st4 ← if k = 0 then delete_inode st3 prev_ino else pure st3
      .ok (st4, true)
  | none => do
    let st1 ← insertEntry st parent_ino entry_name ino
    let st2 ← inc_nlink st1 ino
    .ok (st2, true)

/-- `unlink_file` (src/fs_sqlite.rs lines 424-436): delete the (dir,
name) row (failing `NoSuchEntry` if absent, asserting exactly one row
deleted), decrement the target's link count, and delete the inode when
the count reaches 0. -/
def unlink_file (st : SqlFs) (parent_ino : Nat) (entry_name : String) :
    Except SqlErr SqlFs :=
  match get_dir_entry st parent_ino entry_name with
  | some entry_ino =>
    let es' := eraseEntry st.entries parent_ino entry_name
    if st.entries.length ≠ es'.length + 1 then .error .assertFail
    else do
      let (k, st2) ← dec_nlink { st with entries := es' } entry_ino
      if k = 0 then delete_inode st2 entry_ino else .ok st2
  | none => .error .noSuchEntry

/-- `Filesystem::create_file`: one transaction running `create_inode`
then `link_file`. -/
def sqlCreateFile (st : SqlFs) (parent : Nat) (name : String) (exclusive : Bool)
    (info : NewFileInfo) : Except SqlErr SqlFs := do
  let c := create_inode st info
  let (st2, _) ← link_file c.1 parent exclusive name c.2
  .ok st2

/-- `Filesystem::remove_file`: one transaction running `unlink_file`. -/
def sqlRemoveFile (st : SqlFs) (parent : Nat) (name : String) : Except SqlErr SqlFs :=
  unlink_file st parent name

/-- `Filesystem::rename` (src/fs_sqlite.rs lines 169-177): one
transaction: `lookup(from_dir, from_name)` (entry then `stat`), then
`link_file(to_dir, exclusive = false, to_name)`, then
`unlink_file(from_dir, from_name)`. -/
def sqlRename (st : SqlFs) (from_dir : Nat) (from_name : String) (to_dir : Nat)
    (to_name : String) : Except SqlErr SqlFs :=
  match get_dir_entry st from_dir from_name with
  | none => .error .noSuchEntry
  | some ino => do
    let _ ← sqlStat st ino
    let (st2, _) ← link_file st to_dir false to_name ino
    unlink_file st2 from_dir from_name

/-- `Filesystem::link`: one transaction: `stat(ino)` then `link_file`. -/
def sqlLink (st : SqlFs) (ino : Nat) (dir : Nat) (name : String) :
    Except SqlErr SqlFs := do
  let _ ← sqlStat st ino
  let (st2, _) ← link_file st dir false name ino
  .ok st2

/-- The attribute subset of `Filesystem::set_attributes`. -/
structure SqlSetAttrs where
  length : Option Nat
  perm : Option Nat
  uid : Option Nat
  gid : Option Nat
  crtime : Option Nat
  mtime : Option Nat

/-- `Filesystem::set_attributes` (src/fs_sqlite.rs lines 84-126): stat
the inode; if a length is given it is applied only when the inode is a
mutable file, otherwise the transaction fails `NotMutableFile` before
any update; then the remaining attributes overwrite the row, and the
written `length` column is the (possibly updated) length field of the
stat. Returns the updated stat. -/
def sql_set_attributes (st : SqlFs) (ino : Nat) (attrs : SqlSetAttrs) :
    Except SqlErr (SqlFs × SqlInode) :=
  match lookupA st.inodes ino with
  | none => .error .noSuchInode
  | some r =>
    match attrs.length with
    | some l =>
      if r.ftype = SqlFType.mutableRegular then
        let r2 := { r with
          length := l,
          perm := attrs.perm.getD r.perm,
          uid := attrs.uid.getD r.uid,
          gid := attrs.gid.getD r.gid,
          crtime := attrs.crtime.getD r.crtime,
          mtime := attrs.mtime.getD r.mtime }
        .ok ({ st with inodes := updateA st.inodes ino r2 }, r2)
      else .error .notMutableFile
    | none =>
      let r2 := { r with
        perm := attrs.perm.getD r.perm,
        uid := attrs.uid.getD r.uid,
        gid := attrs.gid.getD r.gid,
        crtime := attrs.crtime.getD r.crtime,
        mtime := attrs.mtime.getD r.mtime }
      .ok ({ st with inodes := updateA st.inodes ino r2 }, r2)

/-- The root inode number: the first SQLite rowid, allocated by
`Filesystem::open` on a fresh database. -/
def rootIno : Nat := 1

/-- The catalog `Filesystem::open` produces on a fresh database:
a root directory inode whose link count was incremented once for the
`Root`-table reference, and no directory entries. -/
def sqlInit : SqlFs :=
  { inodes := [(rootIno,
      { ftype := .directory, perm := 0o700, uid := 0, gid := 0, nlink := 1,
        crtime := 0, mtime := 0, length := 0 })],
    entries := [],
    nextIno := rootIno + 1 }

/-- `Filesystem::update_length_at_least`: `update Inodes set length =
max(?, length) where ino = ? and type = 1`, asserting one row updated
(so the inode must exist and be a mutable file). -/
def update_length_at_least (st : SqlFs) (ino : Nat) (length : Nat) :
    Except SqlErr SqlFs :=
  match lookupA st.inodes ino with
  | some r =>
    if r.ftype = SqlFType.mutableRegular then
      .ok { st with inodes := updateA st.inodes ino { r with length := max length r.length } }
    else .error .assertFail
  | none => .error .assertFail

/-- The catalog's mutating operations, as invoked by the engine. -/
inductive SqlOp where
  | createFile (parent : Nat) (name : String) (exclusive : Bool) (info : NewFileInfo)
  | removeFile (parent : Nat) (name : String)
  | rename (fromDir : Nat) (fromName : String) (toDir : Nat) (toName : String)
  | link (ino : Nat) (dir : Nat) (name : String)
  | setAttributes (ino : Nat) (attrs : SqlSetAttrs)
  | updateLengthAtLeast (ino : Nat) (length : Nat)

/-- Dispatch one catalog operation. -/
def sqlApply (st : SqlFs) : SqlOp → Except SqlErr SqlFs
  | .createFile parent name exclusive info => sqlCreateFile st parent name exclusive info
  | .removeFile parent name => sqlRemoveFile st parent name
  | .rename fd fn td tn => sqlRename st fd fn td tn
  | .link ino dir name => sqlLink st ino dir name
  | .setAttributes ino attrs => (sql_set_attributes st ino attrs).map (fun p => p.1)
  | .updateLengthAtLeast ino length => update_length_at_least st ino length

/-- Run one operation transactionally: a failed transaction rolls the
database back. -/
def sqlStep (st : SqlFs) (op : SqlOp) : SqlFs :=
  match sqlApply st op with
  | .ok st2 => st2
  | .error _ => st

/-- Run a sequence of catalog operations from a state. -/
def sqlRun (st : SqlFs) (ops : List SqlOp) : SqlFs :=
  ops.foldl sqlStep st

/-- The number of directory entries pointing at an inode. -/
def countRefs (st : SqlFs) (i : Nat) : Nat :=
  countTargets st.entries i

/-! ## Control channel (src/control.rs) -/

/-- A control request, after JSON parsing (paths and stores reduced to
strings). -/
inductive CtlRequest where
  | status (path : String)
  | mirror (path : String) (store : String)
  | finalize (path : String)

/-- A control response before serialisation. The payloads of the three
success variants do not matter to the claim and are carried as their
serialised JSON text. -/
inductive CtlResponse where
  | error (msg : String)
  | status (payload : String)
  | mirror (payload : String)
  | finalize (payload : String)

/-- The error kinds `handle_inner` can produce: a bad request (channel
closed before the newline, non-UTF-8 bytes, or unparsable JSON) or any
error from dispatching the request; `Error::to_string` renders the
message. -/
structure CtlError where
  msg : String

/-- Abstract parsers and dispatcher: UTF-8 decoding of the request
bytes, JSON parsing of the request line, dispatch of the parsed
request, and serialisation of the three success payloads. -/
structure CtlEnv where
  utf8 : List Nat → Option String
  parseRequest : String → Option CtlRequest
  dispatch : CtlRequest → Except CtlError CtlResponse

/-- The newline byte. -/
def nlByte : Nat := 10

/-- The receive loop of `handle_inner`: collect bytes until the first
newline; if the channel closes first, fail `BadControlRequest`.
Returns the request line and the remaining bytes. -/
def readLine : List Nat → Option (List Nat × List Nat)
  | [] => none
  | b :: rest =>
    if b = nlByte then some ([], rest)
    else (readLine rest).map (fun p => (b :: p.1, p.2))

/-- `Error::to_string` for `BadControlRequest` (src/error.rs). -/
def badControlRequestMsg : String := "Bad control request."

/-- `handle_inner` (src/control.rs lines 81-109): read one line from
the byte channel, decode UTF-8, parse the JSON request, dispatch. The
channel contents are the bytes written before it closed. -/
def handle_inner (env : CtlEnv) (rx : List Nat) : Except CtlError CtlResponse :=
  match readLine rx with
  | none => .error ⟨badControlRequestMsg⟩
  | some (line, _) =>
    match env.utf8 line with
    | none => .error ⟨badControlRequestMsg⟩
    | some s =>
      match env.parseRequest s with
      | none => .error ⟨badControlRequestMsg⟩
      | some req => env.dispatch req

/-- serde_json rendering of a JSON string literal: quote, escaping
backslashes, quotes and control characters. -/
def jsonString (s : String) : String :=
  "\"" ++ String.join (s.data.map (fun c =>
    if c = '\\' then "\\\\"
    else if c = '\"' then "\\\""
    else if c = '\n' then "\\n"
    else if c.toNat < 32 then "\\u" ++ (Nat.toDigits 16 c.toNat).asString
    else String.singleton c)) ++ "\""

/-- serde_json rendering of the externally tagged `Response` enum.
The `Error` variant serialises as the envelope
`\x7b"Error":\x7b"msg":<msg>\x7d\x7d`. -/
def renderResponse : CtlResponse → String
  | .error msg => "\x7b\"Error\":\x7b\"msg\":" ++ jsonString msg ++ "\x7d\x7d"
  | .status payload => "\x7b\"Status\":" ++ payload ++ "\x7d"
  | .mirror payload => "\x7b\"Mirror\":" ++ payload ++ "\x7d"
  | .finalize payload => "\x7b\"Finalize\":" ++ payload ++ "\x7d"

/-- `handle_message` (src/control.rs lines 66-79): run `handle_inner`;
on error substitute the `Error` response; serialise the single
response. The session's read side returns this string — errors never
escape to tear down the filesystem. -/
def handle_message (env : CtlEnv) (rx : List Nat) : String :=
  match handle_inner env rx with
  | .ok res => renderResponse res
  | .error err => renderResponse (.error err.msg)

/-- Bookkeeping invariant of the catalog database: inode keys and
directory-entry keys are unique (the tables' primary keys), every
inode number and entry target is below the next rowid, and — the
spec's link-count invariant — every inode's `nlink` equals the number
of directory entries pointing at it, except the root, which carries
one extra reference from the `Root` table. -/
def SqlGood (st : SqlFs) : Prop :=
  (st.inodes.map (fun p => p.1)).Nodup ∧
  (entKeys st.entries).Nodup ∧
  (∀ p ∈ st.inodes, p.1 < st.nextIno) ∧
  (∀ e ∈ st.entries, e.target < st.nextIno) ∧
  rootIno < st.nextIno ∧
  (∀ i r, lookupA st.inodes i = some r →
    r.nlink = countTargets st.entries i + (if i = rootIno then 1 else 0))

/-- No inode other than the root survives with a zero link count: an
inode whose count reaches 0 is deleted within the same transaction. -/
def SqlPos (st : SqlFs) : Prop :=
  ∀ i r, lookupA st.inodes i = some r → i ≠ rootIno → 0 < r.nlink

/-- The catalog invariant. -/
def SqlInv (st : SqlFs) : Prop := SqlGood st ∧ SqlPos st

/-! # Theorems -/

/-! ## C1: the encrypting adapter's counter shift -/

theorem xorStream_xorStream (ks : Nat → Nat) : ∀ (p : Nat) (l : List Nat),
    xorStream ks p (xorStream ks p l) = l
  | _, [] => rfl
  | p, b :: rest => by
    simp [xorStream, xorStream_xorStream ks (p + 1) rest, Nat.xor_cancel_right]

/-- C1: for any encrypted store, plainHash `h` (64 bytes), offset and
size, `get` returns the inner store's bytes at
`(cipherHash h, off, n)` XORed with the keystream seeked to
`off + 64`; hence re-encrypting the result with that same keystream
position recovers exactly the inner store's raw bytes, and
`cipherHash h` is the encryption of the whole hash starting at counter
position 0. -/
theorem claim1_encrypted_get_keystream_shift
    (aes : List Nat → List Nat → Nat → Nat) (key : List Nat)
    (inner : List Nat → Nat → Nat → Except StoreErr (List Nat))
    (h : List Nat) (off n : Nat) (raw : List Nat)
    (hlen : h.length = 64)
    (hinner : inner (encrypt_file_hash aes key h).1 off n = .ok raw) :
    (encrypt_file_hash aes key h).1 = xorStream (aes key (h.take 16)) 0 h ∧
    encryptedGet aes key inner h off n =
      .ok (xorStream (aes key (h.take 16)) (off + 64) raw) ∧
    xorStream (aes key (h.take 16)) (off + 64)
      (xorStream (aes key (h.take 16)) (off + 64) raw) = raw := by
  refine ⟨rfl, ?_, xorStream_xorStream _ _ _⟩
  simp only [encryptedGet, hinner]
  simp [encrypt_file_hash, applyKeystream, CtrCipher.seek, hlen]

/-- Witness for C1 at a concrete keystream, inner store and hash. -/
theorem claim1_witness :
    encryptedGet (fun _ _ p => p + 3) [] (fun _ _ _ => .ok [1, 2, 3])
        (List.replicate 64 7) 5 3 =
      .ok (xorStream (fun p => p + 3) (5 + 64) [1, 2, 3]) :=
  (claim1_encrypted_get_keystream_shift (fun _ _ p => p + 3) []
    (fun _ _ _ => .ok [1, 2, 3]) (List.replicate 64 7) 5 3 [1, 2, 3]
    (by simp) rfl).2.1

/-! ## C7: LocalStore `get` error cases and short reads -/

/-- C7: `get(hash, offset, size)` fails `NoSuchHash` when the blob is
absent and `StorageError` (IoError) on another I/O failure; when
present it returns the bytes from `offset` capped at `size` — a
shorter (possibly empty) buffer at EOF, never an error. -/
theorem claim7_local_get_spec (fs : List Nat → FileOutcome) (h : List Nat)
    (off n : Nat) :
    (fs h = .absent → localGet fs h off n = .error .noSuchHash) ∧
    (fs h = .ioErr → localGet fs h off n = .error .storageError) ∧
    (∀ c, fs h = .present c →
      localGet fs h off n = .ok (readN c off n) ∧
      (readN c off n).length = min n (c.length - off) ∧
      (readN c off n).length ≤ n ∧
      (c.length ≤ off → readN c off n = []) ∧
      (n = 0 → readN c off n = [])) := by
  refine ⟨fun ha => by simp [localGet, ha],
          fun hi => by simp [localGet, hi],
          fun c hc => ⟨by simp [localGet, hc], ?_, ?_, ?_, ?_⟩⟩
  · simp [readN]
  · simp [readN]
  · intro hle
    simp [readN, List.drop_eq_nil_of_le hle]
  · intro h0
    simp [readN, h0]

/-- Witness for C7: a present blob read past EOF and an absent blob. -/
theorem claim7_witness :
    localGet (fun _ => .present [10, 20, 30]) [9] 1 5 = .ok [20, 30] ∧
    localGet (fun _ => .absent) [9] 0 4 = .error .noSuchHash := by
  constructor
  · exact ((claim7_local_get_spec (fun _ => .present [10, 20, 30]) [9] 1 5).2.2
      [10, 20, 30] rfl).1
  · exact (claim7_local_get_spec (fun _ => .absent) [9] 0 4).1 rfl

/-! ## C6: LocalStore `finish` promotes and deduplicates -/

/-- C6: `finish` on the mutable file `id` with contents `buf` returns
`(buf.length, H buf)` and promotes the temporary: the `mutable/<id>`
entry disappears (other temporaries untouched); if `ca/<hex-hash>`
already existed the store keeps that single blob unchanged, otherwise
the temporary's bytes are renamed in at `ca/<hex-hash>` (other blobs
untouched). -/
theorem claim6_local_finish (H : List Nat → List Nat) (fs : LocalFs) (id : String)
    (buf : List Nat) (hm : fs.mutab id = some buf) :
    ∃ fs2, mutableFinish H fs id = .ok ((buf.length, H buf), fs2) ∧
      fs2.mutab id = none ∧
      (∀ j, j ≠ id → fs2.mutab j = fs.mutab j) ∧
      ((fs.ca (H buf)).isSome → fs2.ca = fs.ca) ∧
      (fs.ca (H buf) = none →
        fs2.ca (H buf) = some buf ∧ ∀ h2, h2 ≠ H buf → fs2.ca h2 = fs.ca h2) := by
  by_cases hca : (fs.ca (H buf)).isSome
  · refine ⟨{ fs with mutab := fun j => if j = id then none else fs.mutab j },
      ?_, by simp, ?_, fun _ => rfl, ?_⟩
    · simp [mutableFinish, hm, hca]
    · intro j hj
      simp [hj]
    · intro hnone
      rw [hnone] at hca
      simp at hca
  · refine ⟨{ ca := fun h2 => if h2 = H buf then some buf else fs.ca h2,
              mutab := fun j => if j = id then none else fs.mutab j },
      ?_, by simp, ?_, ?_, ?_⟩
    · simp [mutableFinish, hm, hca]
    · intro j hj
      simp [hj]
    · intro hsome
      exact absurd hsome hca
    · intro _
      exact ⟨by simp, fun h2 hh2 => by simp [hh2]⟩

/-- Witness for C6: finishing a two-byte temporary in a store with an
empty `ca/` directory. -/
theorem claim6_witness :
    ∃ fs2,
      mutableFinish (fun l => l)
          { ca := fun _ => none,
            mutab := fun j => if j = "a" then some [1, 2] else none } "a" =
        .ok ((2, [1, 2]), fs2) ∧
      fs2.mutab "a" = none ∧
      (∀ j, j ≠ "a" →
        fs2.mutab j =
          (if j = "a" then some [1, 2] else none)) ∧
      ((none : Option (List Nat)).isSome → fs2.ca = fun _ => none) ∧
      ((none : Option (List Nat)) = none →
        fs2.ca [1, 2] = some [1, 2] ∧
        ∀ h2, h2 ≠ [1, 2] → fs2.ca h2 = none) :=
  claim6_local_finish (fun l => l)
    { ca := fun _ => none, mutab := fun j => if j = "a" then some [1, 2] else none }
    "a" [1, 2] (by simp)

/-! ## C10: `set_file_length` invalidates the handle; `write` does not -/

/-- C10: a successful `set_file_length` leaves the handle's mutex slot
empty, so every subsequent `write`, `read`, `finish` or
`set_file_length` on the handle hits the
"write handle invalidated" panic branch; a successful `write` restores
the file object into the slot. -/
theorem claim10_set_file_length_invalidates :
    (∀ (h : MutFileHandle) (n : Nat) (h2 : MutFileHandle),
      mfSetFileLength h n = .ok h2 →
        h2.slot = none ∧
        (∀ off data, mfWrite h2 off data = .panicked) ∧
        (∀ off sz, mfRead h2 off sz = .panicked) ∧
        (∀ H, mfFinish H h2 = .panicked) ∧
        (∀ m, mfSetFileLength h2 m = .panicked)) ∧
    (∀ (h : MutFileHandle) (off : Nat) (data : List Nat) (h2 : MutFileHandle),
      mfWrite h off data = .ok h2 → h2.slot = some (writeAt h.slot.iget off data)) := by
  constructor
  · intro h n h2 hok
    match hs : h.slot with
    | some f =>
      simp [mfSetFileLength, hs] at hok
      subst hok
      exact ⟨rfl, fun _ _ => rfl, fun _ _ => rfl, fun _ => rfl, fun _ => rfl⟩
    | none =>
      simp [mfSetFileLength, hs] at hok
  · intro h off data h2 hok
    match hs : h.slot with
    | some f =>
      simp [mfWrite, hs] at hok
      subst hok
      simp [hs]
    | none =>
      simp [mfWrite, hs] at hok

/-- Witness for C10 at a concrete handle. -/
theorem claim10_witness :
    ({ slot := none } : MutFileHandle).slot = none ∧
    mfWrite { slot := none } 3 [5] = .panicked ∧
    mfRead { slot := none } 0 1 = .panicked ∧
    mfFinish (fun l => l) { slot := none } = .panicked ∧
    mfSetFileLength { slot := none } 9 = .panicked ∧
    mfWrite { slot := some [1] } 1 [7] = .ok { slot := some (writeAt [1] 1 [7]) } := by
  have hset := claim10_set_file_length_invalidates.1 { slot := some [1, 2] } 0
    { slot := none } rfl
  have hw := claim10_set_file_length_invalidates.2 { slot := some [1] } 1 [7]
    { slot := some (writeAt [1] 1 [7]) } rfl
  exact ⟨hset.1, hset.2.1 3 [5], hset.2.2.1 0 1, hset.2.2.2.1 (fun l => l),
    hset.2.2.2.2 9, rfl⟩

/-! ## Association-list lemmas -/

theorem lookupA_cons {α : Type} (p : Nat × α) (l : List (Nat × α)) (k : Nat) :
    lookupA (p :: l) k = if p.1 = k then some p.2 else lookupA l k := by
  by_cases hp : p.1 = k <;> simp [lookupA, List.find?_cons, hp]

theorem lookupA_updateA_self {α : Type} (l : List (Nat × α)) (k : Nat) (v : α) :
    lookupA (updateA l k v) k = (lookupA l k).map (fun _ => v) := by
  induction l with
  | nil => rfl
  | cons p t ih =>
    by_cases hp : p.1 = k
    · simp [updateA, lookupA_cons, hp]
    · simpa [updateA, lookupA_cons, hp] using ih

theorem lookupA_updateA_ne {α : Type} (l : List (Nat × α)) (k k' : Nat) (v : α)
    (h : k' ≠ k) : lookupA (updateA l k v) k' = lookupA l k' := by
  induction l with
  | nil => rfl
  | cons p t ih =>
    simp only [updateA, List.map_cons] at ih ⊢
    by_cases hp : p.1 = k
    · have hne : ¬ p.1 = k' := by rw [hp]; exact fun e => h e.symm
      rw [if_pos hp, lookupA_cons, lookupA_cons, if_neg hne, if_neg hne, ih]
    · rw [if_neg hp, lookupA_cons, lookupA_cons, ih]

theorem keys_updateA {α : Type} (l : List (Nat × α)) (k : Nat) (v : α) :
    (updateA l k v).map (fun p => p.1) = l.map (fun p => p.1) := by
  induction l with
  | nil => rfl
  | cons p t ih =>
    by_cases hp : p.1 = k <;> simp [updateA, hp] <;> simpa [updateA] using ih

theorem lookupA_eraseA_self {α : Type} (l : List (Nat × α)) (k : Nat) :
    lookupA (eraseA l k) k = none := by
  induction l with
  | nil => rfl
  | cons p t ih =>
    by_cases hp : p.1 = k <;> simpa [eraseA, lookupA_cons, hp] using ih

theorem lookupA_eraseA_ne {α : Type} (l : List (Nat × α)) (k k' : Nat)
    (h : k' ≠ k) : lookupA (eraseA l k) k' = lookupA l k' := by
  induction l with
  | nil => rfl
  | cons p t ih =>
    simp only [eraseA] at ih ⊢
    by_cases hp : p.1 = k
    · have hne : ¬ p.1 = k' := by rw [hp]; exact fun e => h e.symm
      rw [List.filter_cons_of_neg (by simp [hp]), ih, lookupA_cons, if_neg hne]
    · rw [List.filter_cons_of_pos (by simp [hp]), lookupA_cons, lookupA_cons, ih]

theorem keys_eraseA_sublist {α : Type} (l : List (Nat × α)) (k : Nat) :
    ((eraseA l k).map (fun p => p.1)).Sublist (l.map (fun p => p.1)) :=
  (List.filter_sublist l).map _

theorem lookupA_append_some {α : Type} (l l2 : List (Nat × α)) (k : Nat) (v : α)
    (h : lookupA l k = some v) : lookupA (l ++ l2) k = some v := by
  induction l with
  | nil => simp [lookupA] at h
  | cons p t ih =>
    by_cases hp : p.1 = k
    · simpa [lookupA_cons, hp] using by simpa [lookupA_cons, hp] using h
    · rw [lookupA_cons, if_neg hp] at h
      simpa [lookupA_cons, hp] using ih h

theorem lookupA_append_none {α : Type} (l l2 : List (Nat × α)) (k : Nat)
    (h : lookupA l k = none) : lookupA (l ++ l2) k = lookupA l2 k := by
  induction l with
  | nil => simp
  | cons p t ih =>
    by_cases hp : p.1 = k
    · rw [lookupA_cons, if_pos hp] at h
      exact absurd h (by simp)
    · rw [lookupA_cons, if_neg hp] at h
      simpa [lookupA_cons, hp] using ih h

theorem lookupA_mem_keys {α : Type} (l : List (Nat × α)) (k : Nat) (v : α)
    (h : lookupA l k = some v) : k ∈ l.map (fun p => p.1) := by
  induction l with
  | nil => simp [lookupA] at h
  | cons p t ih =>
    by_cases hp : p.1 = k
    · simp [hp]
    · rw [lookupA_cons, if_neg hp] at h
      simp [ih h]

theorem lookupA_eq_none_of_not_mem {α : Type} (l : List (Nat × α)) (k : Nat)
    (h : k ∉ l.map (fun p => p.1)) : lookupA l k = none := by
  induction l with
  | nil => rfl
  | cons p t ih =>
    simp only [List.map_cons, List.mem_cons] at h
    push_neg at h
    rw [lookupA_cons, if_neg (fun e => h.1 e.symm)]
    exact ih h.2

theorem mem_of_lookupA {α : Type} (l : List (Nat × α)) (k : Nat) (v : α)
    (h : lookupA l k = some v) : (k, v) ∈ l := by
  induction l with
  | nil => simp [lookupA] at h
  | cons p t ih =>
    by_cases hp : p.1 = k
    · rw [lookupA_cons, if_pos hp] at h
      injection h with h
      subst hp
      subst h
      simp
    · rw [lookupA_cons, if_neg hp] at h
      exact List.mem_cons_of_mem _ (ih h)

/-! ## C2: immutable-read fail-over and the sticky store -/

theorem probeStores_skip (h : List Nat) (off n : Nat) (d : List Nat)
    (s : StoreGetFun) : ∀ (pre post : List StoreGetFun),
    (∀ p ∈ pre, p h off n = .error .noSuchHash) → s h off n = .ok d →
    probeStores (pre ++ s :: post) h off n = .ok (d, s)
  | [], post, _, hs => by simp [probeStores, hs]
  | q :: t, post, hpre, hs => by
    have hq := hpre q (List.mem_cons_self q t)
    simpa [probeStores, hq] using
      probeStores_skip h off n d s t post
        (fun p hp => hpre p (List.mem_cons_of_mem _ hp)) hs

theorem probeStores_exhaust (h : List Nat) (off n : Nat) :
    ∀ (stores : List StoreGetFun),
    (∀ q ∈ stores, q h off n = .error .noSuchHash) →
    probeStores stores h off n = .error .ENOMEDIUM
  | [], _ => rfl
  | q :: t, hall => by
    have hq := hall q (List.mem_cons_self q t)
    simpa [probeStores, hq] using
      probeStores_exhaust h off n t (fun p hp => hall p (List.mem_cons_of_mem _ hp))

/-- C2: on an immutable-read handle, a set sticky store is the only
store consulted (the result does not depend on the store list at all);
with no sticky store the stores are probed in order, `NoSuchHash`
results are skipped, the first success is returned and that store is
latched into the sticky slot — so the subsequent read consults only
it; if every store reports `NoSuchHash` the read fails ENOMEDIUM. -/
theorem claim2_immutable_read_failover (h : List Nat) (off n : Nat) :
    (∀ (stores stores2 : List StoreGetFun) (s : StoreGetFun),
      readImmutable stores (some s) h off n = readImmutable stores2 (some s) h off n) ∧
    (∀ (stores : List StoreGetFun) (s : StoreGetFun),
      readImmutable stores (some s) h off n =
        ((s h off n).mapError mapStoreErr, some s)) ∧
    (∀ (pre post : List StoreGetFun) (s : StoreGetFun) (d : List Nat),
      (∀ p ∈ pre, p h off n = .error .noSuchHash) → s h off n = .ok d →
      readImmutable (pre ++ s :: post) none h off n = (.ok d, some s) ∧
      ∀ stores2, readImmutable stores2
          (readImmutable (pre ++ s :: post) none h off n).2 h off n = (.ok d, some s)) ∧
    (∀ stores : List StoreGetFun,
      (∀ q ∈ stores, q h off n = .error .noSuchHash) →
      readImmutable stores none h off n = (.error .ENOMEDIUM, none)) := by
  have hdeleg : ∀ (stores : List StoreGetFun) (s : StoreGetFun),
      readImmutable stores (some s) h off n =
        ((s h off n).mapError mapStoreErr, some s) := by
    intro stores s
    cases hs : s h off n <;> simp [readImmutable, hs, Except.mapError]
  refine ⟨fun st1 st2 s => (hdeleg st1 s).trans (hdeleg st2 s).symm, hdeleg,
    fun pre post s d hpre hs => ?_, fun stores hall => ?_⟩
  · have h1 : readImmutable (pre ++ s :: post) none h off n = (.ok d, some s) := by
      simp [readImmutable, probeStores_skip h off n d s pre post hpre hs]
    refine ⟨h1, fun stores2 => ?_⟩
    rw [h1]
    simpa [hs, Except.mapError] using hdeleg stores2 s
  · simp [readImmutable, probeStores_exhaust h off n stores hall]

/-- Witness for C2: two stores where only the second holds the hash. -/
theorem claim2_witness :
    readImmutable [fun _ _ _ => .error .noSuchHash, fun _ _ _ => .ok [42]]
        none [9] 0 1 = (.ok [42], some (fun _ _ _ => .ok [42])) ∧
    readImmutable [fun _ _ _ => .error .noSuchHash]
        (some (fun _ _ _ => .ok [42])) [9] 0 1 =
      (.ok [42], some (fun _ _ _ => .ok [42])) := by
  have hmain := (claim2_immutable_read_failover [9] 0 1).2.2.1
    [fun _ _ _ => .error .noSuchHash] [] (fun _ _ _ => .ok [42]) [42]
    (by intro p hp; rw [List.mem_singleton] at hp; rw [hp])
    rfl
  have hdeleg := (claim2_immutable_read_failover [9] 0 1).2.1
    [fun _ _ _ => .error .noSuchHash] (fun _ _ _ => .ok [42])
  exact ⟨hmain.1, hdeleg⟩

/-! ## C3: release of a write-mode mutable handle -/

/-- C3 counterexample: releasing a handle opened in write mode on a
mutable-file inode, with no prior Finalize request, does NOT leave the
inode mutable: the engine calls `finish` and converts the inode in
place to an immutable regular file with the finished length and hash,
refuting the claim that release only drops the handle. -/
theorem claim3_counterexample :
    fusefsRelease (fun l => l)
        { inodes := [(2, { ino := 2, perm := 0, uid := 0, gid := 0, crtime := 0,
                           mtime := 0, contents := .mutableFile [1, 2, 3] })],
          handles := [(1, .regular true 2)] } 1 =
      .ok { inodes := [(2, { ino := 2, perm := 0, uid := 0, gid := 0, crtime := 0,
                             mtime := 0, contents := .regularFile 3 [1, 2, 3] })],
            handles := [] } ∧
    FContents.isMutable (.regularFile 3 [1, 2, 3]) = false := by
  exact ⟨rfl, rfl⟩

/-- C3 (amended): `release` of a regular handle opened for writing
whose inode is a mutable file finalises the file in place — its
contents become an immutable `RegularFile` with `finish`'s length and
hash — while a handle not opened for writing is dropped without
touching any inode. -/
theorem claim3_release_semantics (H : List Nat → List Nat) (st : FsState)
    (fh ino : Nat) :
    (∀ (c : List Nat) (inode : FInode),
      lookupA st.handles fh = some (.regular true ino) →
      lookupA st.inodes ino = some inode →
      inode.contents = .mutableFile c →
      fusefsRelease H st fh =
        .ok { inodes := updateA st.inodes ino
                { inode with contents := .regularFile c.length (H c) },
              handles := eraseA st.handles fh }) ∧
    (lookupA st.handles fh = some (.regular false ino) →
      fusefsRelease H st fh = .ok { st with handles := eraseA st.handles fh }) := by
  constructor
  · intro c inode hh hi hc
    simp [fusefsRelease, hh, hi, hc]
  · intro hh
    simp [fusefsRelease, hh]

/-- Witness for C3 at a concrete handle table and inode. -/
theorem claim3_witness :
    fusefsRelease (fun _ => [9, 9])
        { inodes := [(5, { ino := 5, perm := 7, uid := 0, gid := 0, crtime := 0,
                           mtime := 0, contents := .mutableFile [4] })],
          handles := [(3, .regular true 5)] } 3 =
      .ok { inodes := updateA
              [(5, { ino := 5, perm := 7, uid := 0, gid := 0, crtime := 0,
                     mtime := 0, contents := .mutableFile [4] })] 5
              { ino := 5, perm := 7, uid := 0, gid := 0, crtime := 0,
                mtime := 0, contents := .regularFile [4].length ((fun _ => [9, 9]) [4]) },
            handles := eraseA [(3, .regular true 5)] 3 } :=
  (claim3_release_semantics (fun _ => [9, 9])
    { inodes := [(5, { ino := 5, perm := 7, uid := 0, gid := 0, crtime := 0,
                       mtime := 0, contents := .mutableFile [4] })],
      handles := [(3, .regular true 5)] } 3 5).1 [4]
    { ino := 5, perm := 7, uid := 0, gid := 0, crtime := 0, mtime := 0,
      contents := .mutableFile [4] } rfl rfl rfl

/-! ## C8: setting the length attribute -/

/-- C8 counterexample: a `setattr` carrying a length on a mutable-file
inode does not apply the length — the engine rejects every
length-carrying `setattr` with ENOTSUP (not EPERM), before reading the
inode kind, refuting the claim that the new length is applied and
forwarded for mutable files. -/
theorem claim8_counterexample :
    fusefsSetattr
        [(2, { ino := 2, perm := 0, uid := 0, gid := 0, crtime := 0, mtime := 0,
               contents := .mutableFile [1] })] 2
        { mode := none, uid := none, gid := none, size := some 5,
          mtime := none, crtime := none } =
      .error .ENOTSUP := rfl

/-- C8 (amended): the engine's `setattr` fails ENOTSUP whenever the
attribute subset includes a length, whatever the inode kind, changing
nothing; the catalog's `set_attributes` applies a requested length
exactly when the inode is a mutable file (leaving other inodes' rows
untouched) and fails `NotMutableFile` — with no update — on immutable
files, directories and symlinks. -/
theorem claim8_setattr_length (inodes : List (Nat × FInode)) (ino : Nat)
    (a : SetattrArgs) (st : SqlFs) (attrs : SqlSetAttrs) (l : Nat) :
    (a.size.isSome → fusefsSetattr inodes ino a = .error .ENOTSUP ∨
      fusefsSetattr inodes ino a = .error .ENXIOcode) ∧
    (∀ r, lookupA st.inodes ino = some r → attrs.length = some l →
      (r.ftype = .mutableRegular →
        ∃ st2 r2, sql_set_attributes st ino attrs = .ok (st2, r2) ∧
          r2.length = l ∧ r2.nlink = r.nlink ∧
          lookupA st2.inodes ino = some r2 ∧
          (∀ j, j ≠ ino → lookupA st2.inodes j = lookupA st.inodes j)) ∧
      (r.ftype ≠ .mutableRegular →
        sql_set_attributes st ino attrs = .error .notMutableFile)) := by
  constructor
  · intro hsize
    cases hl : lookupA inodes ino with
    | none => exact Or.inr (by simp [fusefsSetattr, hl])
    | some inode => exact Or.inl (by simp [fusefsSetattr, hl, hsize])
  · intro r hr hlen
    constructor
    · intro hmut
      have heq : sql_set_attributes st ino attrs = .ok
          ({ st with inodes := updateA st.inodes ino { r with length := l, perm := attrs.perm.getD r.perm, uid := attrs.uid.getD r.uid, gid := attrs.gid.getD r.gid, crtime := attrs.crtime.getD r.crtime, mtime := attrs.mtime.getD r.mtime } },
           { r with length := l, perm := attrs.perm.getD r.perm, uid := attrs.uid.getD r.uid, gid := attrs.gid.getD r.gid, crtime := attrs.crtime.getD r.crtime, mtime := attrs.mtime.getD r.mtime }) := by
        simp [sql_set_attributes, hr, hlen, hmut]
      exact ⟨_, _, heq, rfl, rfl,
        by rw [lookupA_updateA_self, hr]; rfl,
        fun j hj => lookupA_updateA_ne _ _ _ _ hj⟩
    · intro hnotmut
      simp [sql_set_attributes, hr, hlen, hnotmut]

/-- Witness for C8: a length-carrying setattr on a mutable inode at
the engine, and the catalog applying a length to a mutable file. -/
theorem claim8_witness :
    (fusefsSetattr
        [(7, { ino := 7, perm := 0, uid := 0, gid := 0, crtime := 0, mtime := 0,
               contents := .mutableFile [] })] 7
        { mode := none, uid := none, gid := none, size := some 9,
          mtime := none, crtime := none } = .error .ENOTSUP ∨
      fusefsSetattr
        [(7, { ino := 7, perm := 0, uid := 0, gid := 0, crtime := 0, mtime := 0,
               contents := .mutableFile [] })] 7
        { mode := none, uid := none, gid := none, size := some 9,
          mtime := none, crtime := none } = .error .ENXIOcode) ∧
    (∃ st2 r2,
      sql_set_attributes
          { inodes := [(4, { ftype := .mutableRegular, perm := 6, uid := 0, gid := 0,
                             nlink := 1, crtime := 0, mtime := 0, length := 0 })],
            entries := [], nextIno := 5 } 4
          { length := some 9, perm := none, uid := none, gid := none,
            crtime := none, mtime := none } = .ok (st2, r2) ∧
      r2.length = 9 ∧ r2.nlink = 1 ∧
      lookupA st2.inodes 4 = some r2 ∧
      (∀ j, j ≠ 4 →
        lookupA st2.inodes j =
          lookupA [((4 : Nat),
            ({ ftype := .mutableRegular, perm := 6, uid := 0, gid := 0,
               nlink := 1, crtime := 0, mtime := 0,
               length := 0 } : SqlInode))] j)) := by
  constructor
  · exact (claim8_setattr_length
      [(7, { ino := 7, perm := 0, uid := 0, gid := 0, crtime := 0, mtime := 0,
             contents := .mutableFile [] })] 7
      { mode := none, uid := none, gid := none, size := some 9,
        mtime := none, crtime := none }
      { inodes := [], entries := [], nextIno := 0 }
      { length := none, perm := none, uid := none, gid := none,
        crtime := none, mtime := none } 0).1 rfl
  · exact ((claim8_setattr_length [] 4
      { mode := none, uid := none, gid := none, size := none,
        mtime := none, crtime := none }
      { inodes := [(4, { ftype := .mutableRegular, perm := 6, uid := 0, gid := 0,
                         nlink := 1, crtime := 0, mtime := 0, length := 0 })],
        entries := [], nextIno := 5 }
      { length := some 9, perm := none, uid := none, gid := none,
        crtime := none, mtime := none } 9).2
      { ftype := .mutableRegular, perm := 6, uid := 0, gid := 0,
        nlink := 1, crtime := 0, mtime := 0, length := 0 } rfl rfl).1 rfl

/-! ## C4: rename onto an existing name -/

/-- C4 (code bug): neither engine behaves as specified for rename.
In a directory binding "x" to inode 2: (a) the FUSE engine's rename of
"x" onto itself fails EEXIST instead of being a no-op, and rename onto
another existing name "y" also fails EEXIST instead of replacing it;
(b) the SQLite catalog's rename of "x" onto itself first observes the
destination entry already binds the same inode (a no-op link), then
unlinks the source — which is the same entry — so the rename "succeeds"
by deleting the file: the entry is gone and inode 2 is destroyed. -/
theorem claim4_rename_existing_target :
    fusefsRename
        [(1, { ino := 1, perm := 448, uid := 0, gid := 0, crtime := 0, mtime := 0,
               contents := .directory [("x", 2)] }),
         (2, { ino := 2, perm := 420, uid := 0, gid := 0, crtime := 0, mtime := 0,
               contents := .mutableFile [] })]
        1 "x" 1 "x" = .error .EEXIST ∧
    fusefsRename
        [(1, { ino := 1, perm := 448, uid := 0, gid := 0, crtime := 0, mtime := 0,
               contents := .directory [("x", 2), ("y", 3)] }),
         (2, { ino := 2, perm := 420, uid := 0, gid := 0, crtime := 0, mtime := 0,
               contents := .regularFile 0 [] }),
         (3, { ino := 3, perm := 420, uid := 0, gid := 0, crtime := 0, mtime := 0,
               contents := .regularFile 0 [] })]
        1 "x" 1 "y" = .error .EEXIST ∧
    sqlRename
        { inodes := [(1, { ftype := .directory, perm := 448, uid := 0, gid := 0,
                           nlink := 1, crtime := 0, mtime := 0, length := 0 }),
                     (2, { ftype := .mutableRegular, perm := 420, uid := 0, gid := 0,
                           nlink := 1, crtime := 0, mtime := 0, length := 0 })],
          entries := [⟨1, "x", 2⟩], nextIno := 3 }
        1 "x" 1 "x" =
      .ok { inodes := [(1, { ftype := .directory, perm := 448, uid := 0, gid := 0,
                             nlink := 1, crtime := 0, mtime := 0, length := 0 })],
            entries := [], nextIno := 3 } ∧
    sqlStat { inodes := [(1, { ftype := .directory, perm := 448, uid := 0, gid := 0,
                               nlink := 1, crtime := 0, mtime := 0, length := 0 })],
              entries := [], nextIno := 3 } 2 = .error .noSuchInode := by
  refine ⟨rfl, rfl, ?_, rfl⟩
  rfl

/-! ## C9: control-channel sessions -/

theorem readLine_append (rest : List Nat) : ∀ (pre : List Nat), nlByte ∉ pre →
    readLine (pre ++ nlByte :: rest) = some (pre, rest)
  | [], _ => by simp [readLine]
  | b :: t, hpre => by
    have hb : ¬ b = nlByte := fun hb => hpre (hb ▸ List.mem_cons_self b t)
    have ht : nlByte ∉ t := fun hm => hpre (List.mem_cons_of_mem _ hm)
    simp [readLine, hb, readLine_append rest t ht]

theorem readLine_none : ∀ (rx : List Nat), nlByte ∉ rx → readLine rx = none
  | [], _ => rfl
  | b :: t, hrx => by
    have hb : ¬ b = nlByte := fun hb => hrx (hb ▸ List.mem_cons_self b t)
    have ht : nlByte ∉ t := fun hm => hrx (List.mem_cons_of_mem _ hm)
    simp [readLine, hb, readLine_none t ht]

/-- C9: one control session produces exactly one serialised response:
the bytes before the first newline form the request; if the channel
closes with no newline, the bytes are not UTF-8, the JSON does not
parse, or the dispatch fails, the response is the serialised
`Error` envelope (whose rendering is the `\x7b"Error":\x7b"msg":…\x7d\x7d`
object); a successful dispatch yields that response serialised. No
failure escapes `handle_message`. -/
theorem claim9_control_single_response (env : CtlEnv) (pre rest rx : List Nat) :
    (∀ m, renderResponse (.error m) =
      "\x7b\"Error\":\x7b\"msg\":" ++ jsonString m ++ "\x7d\x7d") ∧
    (nlByte ∉ rx →
      handle_message env rx = renderResponse (.error badControlRequestMsg)) ∧
    (nlByte ∉ pre →
      (env.utf8 pre = none →
        handle_message env (pre ++ nlByte :: rest) =
          renderResponse (.error badControlRequestMsg)) ∧
      (∀ s, env.utf8 pre = some s → env.parseRequest s = none →
        handle_message env (pre ++ nlByte :: rest) =
          renderResponse (.error badControlRequestMsg)) ∧
      (∀ s req e, env.utf8 pre = some s → env.parseRequest s = some req →
        env.dispatch req = .error e →
        handle_message env (pre ++ nlByte :: rest) = renderResponse (.error e.msg)) ∧
      (∀ s req res, env.utf8 pre = some s → env.parseRequest s = some req →
        env.dispatch req = .ok res →
        handle_message env (pre ++ nlByte :: rest) = renderResponse res)) := by
  refine ⟨fun _ => rfl, fun hno => ?_, fun hpre => ⟨?_, ?_, ?_, ?_⟩⟩
  · simp [handle_message, handle_inner, readLine_none rx hno]
  · intro hu
    simp [handle_message, handle_inner, readLine_append rest pre hpre, hu]
  · intro s hu hp
    simp [handle_message, handle_inner, readLine_append rest pre hpre, hu, hp]
  · intro s req e hu hp hd
    simp [handle_message, handle_inner, readLine_append rest pre hpre, hu, hp, hd]
  · intro s req res hu hp hd
    simp [handle_message, handle_inner, readLine_append rest pre hpre, hu, hp, hd]

/-- Witness for C9: a concrete session whose dispatch fails, and one
whose channel closes before any newline. -/
theorem claim9_witness :
    handle_message
        { utf8 := fun l => if l = [65] then some "A" else none,
          parseRequest := fun s => if s = "A" then some (.status "p") else none,
          dispatch := fun _ => .error ⟨"boom"⟩ } [65, 10] =
      renderResponse (.error "boom") ∧
    handle_message
        { utf8 := fun l => if l = [65] then some "A" else none,
          parseRequest := fun s => if s = "A" then some (.status "p") else none,
          dispatch := fun _ => .error ⟨"boom"⟩ } [66] =
      renderResponse (.error badControlRequestMsg) := by
  constructor
  · exact ((claim9_control_single_response
      { utf8 := fun l => if l = [65] then some "A" else none,
        parseRequest := fun s => if s = "A" then some (.status "p") else none,
        dispatch := fun _ => .error ⟨"boom"⟩ } [65] [] []).2.2
      (by decide)).2.2.1 "A" (.status "p") ⟨"boom"⟩ (by simp) (by simp) rfl
  · exact (claim9_control_single_response
      { utf8 := fun l => if l = [65] then some "A" else none,
        parseRequest := fun s => if s = "A" then some (.status "p") else none,
        dispatch := fun _ => .error ⟨"boom"⟩ } [] [] [66]).2.1 (by decide)

/-! ## C5: directory-entry and link-count lemmas -/

theorem updateA_fst_mem {α : Type} (l : List (Nat × α)) (k : Nat) (v : α) :
    ∀ q ∈ updateA l k v, ∃ q' ∈ l, q.1 = q'.1 := by
  intro q hq
  obtain ⟨q', hq', he⟩ := List.mem_map.mp hq
  refine ⟨q', hq', ?_⟩
  rw [← he]
  split <;> rfl

theorem countTargets_cons (e : DirEnt) (es : List DirEnt) (j : Nat) :
    countTargets (e :: es) j =
      (if e.target = j then 1 else 0) + countTargets es j := by
  by_cases he : e.target = j <;>
    simp [countTargets, List.filter_cons, he, Nat.add_comm]

theorem countTargets_append (es es2 : List DirEnt) (j : Nat) :
    countTargets (es ++ es2) j = countTargets es j + countTargets es2 j := by
  simp [countTargets, List.filter_append]

theorem countTargets_perm {es es' : List DirEnt} (h : es.Perm es') (j : Nat) :
    countTargets es j = countTargets es' j :=
  (h.filter _).length_eq

theorem countTargets_eq_zero (es : List DirEnt) (j : Nat)
    (h : ∀ e ∈ es, e.target ≠ j) : countTargets es j = 0 := by
  simp only [countTargets, List.length_eq_zero]
  rw [List.filter_eq_nil]
  intro e he
  simp [h e he]

theorem countTargets_pos (es : List DirEnt) (e : DirEnt) (he : e ∈ es)
    (ht : e.target = j) : 0 < countTargets es j := by
  have : e ∈ es.filter (fun x => x.target = j) :=
    List.mem_filter.mpr ⟨he, by simp [ht]⟩
  exact List.length_pos.mpr (fun hnil => by simp [hnil] at this)

theorem findEnt_some_facts (es : List DirEnt) (d : Nat) (n : String) (e : DirEnt)
    (h : findEnt es d n = some e) : e ∈ es ∧ e.dir = d ∧ e.name = n := by
  have hm := List.mem_of_find?_eq_some h
  have hp := List.find?_some h
  simp only [Bool.and_eq_true, decide_eq_true_eq] at hp
  exact ⟨hm, hp.1, hp.2⟩

theorem eraseEntry_of_findEnt_none (es : List DirEnt) (d : Nat) (n : String)
    (h : findEnt es d n = none) : eraseEntry es d n = es := by
  rw [findEnt, List.find?_eq_none] at h
  rw [eraseEntry, List.filter_eq_self]
  intro e he
  simp only [Bool.not_eq_true']
  exact Bool.not_eq_true _ ▸ (by simpa using h e he)

theorem findEnt_none_of_key_not_mem (es : List DirEnt) (d : Nat) (n : String)
    (h : (d, n) ∉ entKeys es) : findEnt es d n = none := by
  rw [findEnt, List.find?_eq_none]
  intro e he
  simp only [Bool.and_eq_true, decide_eq_true_eq, not_and]
  intro hd hn
  exact absurd (List.mem_map.mpr ⟨e, he, by rw [hd, hn]⟩) h

theorem key_not_mem_entKeys_eraseEntry (es : List DirEnt) (d : Nat) (n : String) :
    (d, n) ∉ entKeys (eraseEntry es d n) := by
  intro hmem
  obtain ⟨e, he, hkey⟩ := List.mem_map.mp hmem
  have hf := List.of_mem_filter he
  injection hkey with h1 h2
  simp [h1, h2] at hf

theorem entKeys_eraseEntry_sublist (es : List DirEnt) (d : Nat) (n : String) :
    (entKeys (eraseEntry es d n)).Sublist (entKeys es) :=
  (List.filter_sublist es).map _

theorem eraseEntry_subset (es : List DirEnt) (d : Nat) (n : String) :
    ∀ e ∈ eraseEntry es d n, e ∈ es := fun _ he => List.mem_of_mem_filter he

theorem erase_perm (d : Nat) (n : String) (e : DirEnt) :
    ∀ (es : List DirEnt), (entKeys es).Nodup → findEnt es d n = some e →
    es.Perm (e :: eraseEntry es d n)
  | [], _, hfind => by simp [findEnt] at hfind
  | x :: t, hnd, hfind => by
    rw [entKeys, List.map_cons, List.nodup_cons] at hnd
    by_cases hx : x.dir = d ∧ x.name = n
    · have hfx : findEnt (x :: t) d n = some x := by
        simp [findEnt, List.find?_cons, hx.1, hx.2]
      rw [hfind] at hfx
      have hex : e = x := Option.some.inj hfx
      have htnone : findEnt t d n = none := by
        apply findEnt_none_of_key_not_mem
        rw [← hx.1, ← hx.2]
        exact hnd.1
      have herase : eraseEntry (x :: t) d n = t := by
        have h2 := eraseEntry_of_findEnt_none t d n htnone
        rw [eraseEntry, List.filter_cons, if_neg (by simp [hx.1, hx.2])]
        exact h2
      rw [hex, herase]
    · have hfx : findEnt (x :: t) d n = findEnt t d n := by
        rw [findEnt, List.find?_cons_of_neg, findEnt]
        simp only [Bool.and_eq_true, decide_eq_true_eq]
        exact hx
      rw [hfx] at hfind
      have hperm := erase_perm d n e t hnd.2 hfind
      have hcond : (!(decide (x.dir = d) && decide (x.name = n))) = true := by
        by_cases hd : x.dir = d
        · by_cases hn : x.name = n
          · exact absurd ⟨hd, hn⟩ hx
          · simp [hd, hn]
        · simp [hd]
      have herase : eraseEntry (x :: t) d n = x :: eraseEntry t d n := by
        simp only [eraseEntry, List.filter_cons, hcond, if_true]
      rw [herase]
      have hswap : (x :: e :: eraseEntry t d n).Perm (e :: x :: eraseEntry t d n) :=
        List.Perm.swap _ _ _
      exact (hperm.cons x).trans hswap

theorem countTargets_erase (es : List DirEnt) (d : Nat) (n : String) (e : DirEnt)
    (hnd : (entKeys es).Nodup) (hfind : findEnt es d n = some e) (j : Nat) :
    countTargets es j =
      (if e.target = j then 1 else 0) + countTargets (eraseEntry es d n) j := by
  rw [countTargets_perm (erase_perm d n e es hnd hfind) j, countTargets_cons]

theorem length_erase (es : List DirEnt) (d : Nat) (n : String) (e : DirEnt)
    (hnd : (entKeys es).Nodup) (hfind : findEnt es d n = some e) :
    es.length = (eraseEntry es d n).length + 1 := by
  have := (erase_perm d n e es hnd hfind).length_eq
  simpa using this

theorem eraseA_subset {α : Type} (l : List (Nat × α)) (k : Nat) :
    ∀ q ∈ eraseA l k, q ∈ l := fun _ hq => List.mem_of_mem_filter hq

theorem get_dir_entry_some (st : SqlFs) (p : Nat) (n : String) (prev : Nat)
    (h : get_dir_entry st p n = some prev) :
    ∃ e, findEnt st.entries p n = some e ∧ e.target = prev ∧ e ∈ st.entries := by
  unfold get_dir_entry at h
  cases hf : findEnt st.entries p n with
  | none => rw [hf] at h; simp at h
  | some e =>
    rw [hf] at h
    exact ⟨e, rfl, by simpa using h, (findEnt_some_facts _ _ _ _ hf).1⟩

theorem get_dir_entry_none (st : SqlFs) (p : Nat) (n : String)
    (h : get_dir_entry st p n = none) : findEnt st.entries p n = none := by
  unfold get_dir_entry at h
  cases hf : findEnt st.entries p n with
  | none => rfl
  | some e => rw [hf] at h; simp at h

theorem insertEntry_ok (st : SqlFs) (d : Nat) (n : String) (i : Nat) (st2 : SqlFs)
    (h : insertEntry st d n i = .ok st2) :
    (lookupA st.inodes d).isSome ∧ (lookupA st.inodes i).isSome ∧
    st2 = { st with entries := eraseEntry st.entries d n ++ [⟨d, n, i⟩] } := by
  unfold insertEntry at h
  split at h
  · next hc => exact ⟨hc.1, hc.2, (Except.ok.inj h).symm⟩
  · exact absurd h (by simp)

theorem inc_nlink_ok (st : SqlFs) (i : Nat) (st2 : SqlFs)
    (h : inc_nlink st i = .ok st2) :
    ∃ r, lookupA st.inodes i = some r ∧
      st2 = { st with inodes := updateA st.inodes i { r with nlink := r.nlink + 1 } } := by
  unfold inc_nlink at h
  cases hl : lookupA st.inodes i with
  | none => rw [hl] at h; exact absurd h (by simp)
  | some r => rw [hl] at h; exact ⟨r, rfl, (Except.ok.inj h).symm⟩

theorem dec_nlink_ok (st : SqlFs) (i k : Nat) (st2 : SqlFs)
    (h : dec_nlink st i = .ok (k, st2)) :
    ∃ r, lookupA st.inodes i = some r ∧ r.nlink ≠ 0 ∧ k = r.nlink - 1 ∧
      st2 = { st with inodes := updateA st.inodes i { r with nlink := r.nlink - 1 } } := by
  unfold dec_nlink at h
  cases hl : lookupA st.inodes i with
  | none => rw [hl] at h; exact absurd h (by simp)
  | some r =>
    rw [hl] at h
    have h2 : (if r.nlink = 0 then (.error .assertFail : Except SqlErr (Nat × SqlFs))
        else .ok (r.nlink - 1,
          { st with inodes := updateA st.inodes i { r with nlink := r.nlink - 1 } })) =
        .ok (k, st2) := h
    by_cases hz : r.nlink = 0
    · rw [if_pos hz] at h2
      exact absurd h2 (by simp)
    · rw [if_neg hz] at h2
      injection h2 with h2
      injection h2 with h1 h3
      exact ⟨r, rfl, hz, h1.symm, h3.symm⟩

theorem delete_inode_ok (st : SqlFs) (i : Nat) (st2 : SqlFs)
    (h : delete_inode st i = .ok st2) :
    (∀ e ∈ st.entries, ¬(e.dir = i) ∧ ¬(e.target = i)) ∧
    st2 = { st with inodes := eraseA st.inodes i } := by
  unfold delete_inode at h
  split at h
  · exact absurd h (by simp)
  · next hany =>
    split at h
    · refine ⟨?_, (Except.ok.inj h).symm⟩
      intro e he
      have hnor : ¬((e.dir = i) ∨ (e.target = i)) := fun hor =>
        hany (List.any_eq_true.mpr ⟨e, he, by rcases hor with h1 | h1 <;> simp [h1]⟩)
      exact ⟨fun h1 => hnor (Or.inl h1), fun h1 => hnor (Or.inr h1)⟩
    · exact absurd h (by simp)

theorem lookupA_append_single_self {α : Type} (l : List (Nat × α)) (k : Nat) (v : α)
    (h : lookupA l k = none) : lookupA (l ++ [(k, v)]) k = some v := by
  rw [lookupA_append_none _ _ _ h, lookupA_cons]
  simp

theorem lookupA_append_single_ne {α : Type} (l : List (Nat × α)) (k j : Nat) (v : α)
    (hj : j ≠ k) : lookupA (l ++ [(k, v)]) j = lookupA l j := by
  cases hl : lookupA l j with
  | some r => exact lookupA_append_some _ _ _ _ hl
  | none =>
    rw [lookupA_append_none _ _ _ hl, lookupA_cons, if_neg (fun e => hj e.symm)]
    rfl

theorem create_inode_spec (st : SqlFs) (info : NewFileInfo)
    (hlt : ∀ p ∈ st.inodes, p.1 < st.nextIno) :
    (create_inode st info).2 = st.nextIno ∧
    (create_inode st info).1.nextIno = st.nextIno + 1 ∧
    (create_inode st info).1.entries = st.entries ∧
    lookupA st.inodes st.nextIno = none ∧
    lookupA (create_inode st info).1.inodes st.nextIno =
      some { ftype := info.ftype, perm := info.perm, uid := info.uid,
             gid := info.gid, nlink := 0, crtime := 0, mtime := 0,
             length := info.length } ∧
    (∀ j, j ≠ st.nextIno →
      lookupA (create_inode st info).1.inodes j = lookupA st.inodes j) := by
  have hnone : lookupA st.inodes st.nextIno = none := by
    apply lookupA_eq_none_of_not_mem
    intro hmem
    obtain ⟨q, hq, he⟩ := List.mem_map.mp hmem
    exact absurd (he ▸ hlt q hq) (lt_irrefl _)
  refine ⟨rfl, rfl, rfl, hnone, ?_, ?_⟩
  · exact lookupA_append_single_self _ _ _ hnone
  · intro j hj
    exact lookupA_append_single_ne _ _ _ _ hj

theorem except_bind_ok {ε α β : Type} (x : Except ε α) (f : α → Except ε β) (b : β)
    (h : x >>= f = .ok b) : ∃ a, x = .ok a ∧ f a = .ok b := by
  cases x with
  | error e => simp [Bind.bind, Except.bind] at h
  | ok a => exact ⟨a, rfl, by simpa [Bind.bind, Except.bind] using h⟩

theorem except_pure_ok {ε α : Type} (a b : α) (h : (pure a : Except ε α) = .ok b) :
    a = b := by
  simpa [pure, Except.pure] using h

theorem entKeys_insert_nodup (es : List DirEnt) (p : Nat) (n : String) (i : Nat)
    (hnd : (entKeys es).Nodup) :
    (entKeys (eraseEntry es p n ++ [⟨p, n, i⟩])).Nodup := by
  have h1 : (entKeys (eraseEntry es p n)).Nodup :=
    List.Nodup.sublist (entKeys_eraseEntry_sublist es p n) hnd
  have h2 : (p, n) ∉ entKeys (eraseEntry es p n) :=
    key_not_mem_entKeys_eraseEntry es p n
  rw [entKeys, List.map_append, List.nodup_append]
  refine ⟨h1, by simp, ?_⟩
  intro a ha hb
  simp only [List.map_cons, List.map_nil, List.mem_singleton] at hb
  subst hb
  exact h2 ha

theorem countTargets_singleton (p : Nat) (n : String) (i j : Nat) :
    countTargets [⟨p, n, i⟩] j = if i = j then 1 else 0 := by
  by_cases hij : i = j <;> simp [countTargets, List.filter_cons, hij]

theorem countTargets_insert_of_replace (es : List DirEnt) (p : Nat) (n : String)
    (i : Nat) (e : DirEnt) (hnd : (entKeys es).Nodup)
    (hfind : findEnt es p n = some e) (j : Nat) :
    countTargets (eraseEntry es p n ++ [⟨p, n, i⟩]) j +
      (if e.target = j then 1 else 0) =
    countTargets es j + (if i = j then 1 else 0) := by
  rw [countTargets_append, countTargets_singleton,
    countTargets_erase es p n e hnd hfind j]
  omega

theorem countTargets_insert_of_none (es : List DirEnt) (p : Nat) (n : String)
    (i : Nat) (hfind : findEnt es p n = none) (j : Nat) :
    countTargets (eraseEntry es p n ++ [⟨p, n, i⟩]) j =
      countTargets es j + (if i = j then 1 else 0) := by
  rw [countTargets_append, countTargets_singleton,
    eraseEntry_of_findEnt_none es p n hfind]

theorem link_file_noop (st : SqlFs) (p : Nat) (ex : Bool) (n : String) (i : Nat)
    (hget : get_dir_entry st p n = some i) :
    link_file st p ex n i = .ok (st, false) := by
  unfold link_file
  rw [hget]
  simp

theorem link_file_inv (st : SqlFs) (p : Nat) (ex : Bool) (n : String) (i : Nat)
    (st2 : SqlFs) (b : Bool) (hG : SqlGood st)
    (h : link_file st p ex n i = .ok (st2, b)) :
    SqlGood st2 ∧ st2.nextIno = st.nextIno ∧
    (∀ j r2, lookupA st2.inodes j = some r2 →
      0 < r2.nlink ∨ (j ≠ i ∧ ∃ r, lookupA st.inodes j = some r ∧ r2.nlink = r.nlink)) := by
  obtain ⟨hIno, hEnt, hLt, hTgt, hRoot, hEq⟩ := hG
  unfold link_file at h
  split at h
  next prev hget =>
    split at h
    next hip =>
      -- the entry already binds this inode: nothing changes
      subst hip
      injection h with h
      injection h with h1 h2
      subst h1
      obtain ⟨e, hfe, hte, hme⟩ := get_dir_entry_some st p n i hget
      refine ⟨⟨hIno, hEnt, hLt, hTgt, hRoot, hEq⟩, rfl, ?_⟩
      intro j r2 hj
      try dsimp only at hj ⊢
      by_cases hji : j = i
      · left
        subst hji
        have hpos : 0 < countTargets st.entries j :=
          countTargets_pos st.entries e hme hte
        have heq := hEq j r2 hj
        rw [heq]
        by_cases hjr : j = rootIno <;> simp [hjr] <;> omega
      · right
        exact ⟨hji, r2, hj, rfl⟩
    next hip =>
      split at h
      next hex => exact absurd h (by simp)
      next hex =>
        -- replace an entry binding a different inode
        obtain ⟨e, hfe, hte, hme⟩ := get_dir_entry_some st p n prev hget
        obtain ⟨st1, hins, h⟩ := except_bind_ok _ _ _ h
        obtain ⟨hpd, hpi, hst1⟩ := insertEntry_ok _ _ _ _ _ hins
        subst hst1
        obtain ⟨st1b, hinc, h⟩ := except_bind_ok _ _ _ h
        obtain ⟨ri, hri, hst1b⟩ := inc_nlink_ok _ _ _ hinc
        subst hst1b
        obtain ⟨kp, hdec, h⟩ := except_bind_ok _ _ _ h
        obtain ⟨k, st3⟩ := kp
        obtain ⟨rp, hrp, hnz, hk, hst3⟩ := dec_nlink_ok _ _ _ _ hdec
        subst hst3
        dsimp only at hri hrp h
        have hrist : lookupA st.inodes i = some ri := hri
        have hrpst : lookupA st.inodes prev = some rp := by
          rwa [lookupA_updateA_ne _ _ _ _ (fun hpe => hip hpe.symm)] at hrp
        have h6 : (if k = 0 then
            delete_inode
              { st with
                entries := eraseEntry st.entries p n ++ [⟨p, n, i⟩],
                inodes := updateA (updateA st.inodes i { ri with nlink := ri.nlink + 1 })
                  prev { rp with nlink := rp.nlink - 1 } } prev >>=
              (fun st4 => Except.ok (st4, true))
          else
            pure { st with
                entries := eraseEntry st.entries p n ++ [⟨p, n, i⟩],
                inodes := updateA (updateA st.inodes i { ri with nlink := ri.nlink + 1 })
                  prev { rp with nlink := rp.nlink - 1 } } >>=
              (fun st4 => Except.ok (st4, true))) = .ok (st2, b) := h
        have hcount := countTargets_insert_of_replace st.entries p n i e hEnt hfe
        have hcprev : 0 < countTargets st.entries prev :=
          countTargets_pos st.entries e hme hte
        by_cases hk0 : k = 0
        · rw [if_pos hk0] at h6
          obtain ⟨st4, hdel, h6⟩ := except_bind_ok _ _ _ h6
          obtain ⟨hnoref, hst4⟩ := delete_inode_ok _ _ _ hdel
          subst hst4
          injection h6 with h6
          injection h6 with h61 h62
          subst h61
          dsimp only
          have hlook : ∀ j, j ≠ prev →
              lookupA (eraseA (updateA (updateA st.inodes i { ri with nlink := ri.nlink + 1 })
                prev { rp with nlink := rp.nlink - 1 }) prev) j =
              (if j = i then some { ri with nlink := ri.nlink + 1 }
               else lookupA st.inodes j) := by
            intro j hjp
            rw [lookupA_eraseA_ne _ _ _ hjp, lookupA_updateA_ne _ _ _ _ hjp]
            by_cases hji : j = i
            · subst hji
              rw [if_pos rfl, lookupA_updateA_self, hrist]
              rfl
            · rw [if_neg hji, lookupA_updateA_ne _ _ _ _ hji]
          refine ⟨⟨?_, entKeys_insert_nodup _ _ _ _ hEnt, ?_, ?_, hRoot, ?_⟩, rfl, ?_⟩
          · -- inode keys still nodup
            apply List.Nodup.sublist (keys_eraseA_sublist _ _)
            rw [keys_updateA, keys_updateA]
            exact hIno
          · -- inode numbers below nextIno
            intro q hq
            obtain ⟨q1, hq1, he1⟩ := updateA_fst_mem _ _ _ _ (eraseA_subset _ _ _ hq)
            obtain ⟨q2, hq2, he2⟩ := updateA_fst_mem _ _ _ _ hq1
            rw [he1, he2]
            exact hLt q2 hq2
          · -- entry targets below nextIno
            intro e2 he2
            rcases List.mem_append.mp he2 with h1 | h1
            · exact hTgt e2 (eraseEntry_subset _ _ _ _ h1)
            · rw [List.mem_singleton] at h1
              subst h1
              exact hLt _ (mem_of_lookupA _ _ _ hrist)
          · -- link counts
            intro j r2 hj
            try dsimp only at hj ⊢
            by_cases hjp : j = prev
            · subst hjp
              rw [lookupA_eraseA_self] at hj
              exact absurd hj (by simp)
            · rw [hlook j hjp] at hj
              have hcj := hcount j
              have hei : ¬ e.target = j := by rw [hte]; exact fun hpe => hjp hpe.symm
              rw [if_neg hei] at hcj
              by_cases hji : j = i
              · subst hji
                rw [if_pos rfl] at hj
                rw [if_pos rfl] at hcj
                injection hj with hj
                subst hj
                dsimp only
                have := hEq j ri hrist
                omega
              · rw [if_neg hji] at hj
                have := hEq j r2 hj
                have hii : ¬ i = j := fun hij => hji hij.symm
                rw [if_neg hii] at hcj
                omega
          · -- link-count transfer
            intro j r2 hj
            try dsimp only at hj ⊢
            by_cases hjp : j = prev
            · subst hjp
              rw [lookupA_eraseA_self] at hj
              exact absurd hj (by simp)
            · rw [hlook j hjp] at hj
              by_cases hji : j = i
              · rw [if_pos hji] at hj
                injection hj with hj
                subst hj
                left
                simp
              · rw [if_neg hji] at hj
                right
                exact ⟨hji, r2, hj, rfl⟩
        · rw [if_neg hk0] at h6
          obtain ⟨st4, hpure, h6⟩ := except_bind_ok _ _ _ h6
          have hst4 := except_pure_ok _ _ hpure
          subst hst4
          injection h6 with h6
          injection h6 with h61 h62
          subst h61
          dsimp only
          have hlook : ∀ j, lookupA (updateA (updateA st.inodes i
              { ri with nlink := ri.nlink + 1 }) prev
              { rp with nlink := rp.nlink - 1 }) j =
              (if j = prev then some { rp with nlink := rp.nlink - 1 }
               else if j = i then some { ri with nlink := ri.nlink + 1 }
               else lookupA st.inodes j) := by
            intro j
            by_cases hjp : j = prev
            · subst hjp
              rw [if_pos rfl, lookupA_updateA_self, lookupA_updateA_ne _ _ _ _
                (fun hpe => hip hpe.symm), hrpst]
              rfl
            · rw [if_neg hjp, lookupA_updateA_ne _ _ _ _ hjp]
              by_cases hji : j = i
              · subst hji
                rw [if_pos rfl, lookupA_updateA_self, hrist]
                rfl
              · rw [if_neg hji, lookupA_updateA_ne _ _ _ _ hji]
          refine ⟨⟨?_, entKeys_insert_nodup _ _ _ _ hEnt, ?_, ?_, hRoot, ?_⟩, rfl, ?_⟩
          · rw [keys_updateA, keys_updateA]
            exact hIno
          · intro q hq
            obtain ⟨q1, hq1, he1⟩ := updateA_fst_mem _ _ _ _ hq
            obtain ⟨q2, hq2, he2⟩ := updateA_fst_mem _ _ _ _ hq1
            rw [he1, he2]
            exact hLt q2 hq2
          · intro e2 he2
            rcases List.mem_append.mp he2 with h1 | h1
            · exact hTgt e2 (eraseEntry_subset _ _ _ _ h1)
            · rw [List.mem_singleton] at h1
              subst h1
              exact hLt _ (mem_of_lookupA _ _ _ hrist)
          · intro j r2 hj
            try dsimp only at hj ⊢
            rw [hlook j] at hj
            have hcj := hcount j
            by_cases hjp : j = prev
            · subst hjp
              rw [if_pos rfl] at hj
              injection hj with hj
              subst hj
              dsimp only
              have := hEq j rp hrpst
              have hte2 : e.target = j := hte
              rw [if_pos hte2] at hcj
              have hii : ¬ i = j := fun hij => hip hij
              rw [if_neg hii] at hcj
              omega
            · rw [if_neg hjp] at hj
              have hei : ¬ e.target = j := by rw [hte]; exact fun hpe => hjp hpe.symm
              rw [if_neg hei] at hcj
              by_cases hji : j = i
              · subst hji
                rw [if_pos rfl] at hj
                rw [if_pos rfl] at hcj
                injection hj with hj
                subst hj
                dsimp only
                have := hEq j ri hrist
                omega
              · rw [if_neg hji] at hj
                have := hEq j r2 hj
                have hii : ¬ i = j := fun hij => hji hij.symm
                rw [if_neg hii] at hcj
                omega
          · intro j r2 hj
            try dsimp only at hj ⊢
            rw [hlook j] at hj
            by_cases hjp : j = prev
            · rw [if_pos hjp] at hj
              injection hj with hj
              subst hj
              left
              dsimp only
              omega
            · rw [if_neg hjp] at hj
              by_cases hji : j = i
              · rw [if_pos hji] at hj
                injection hj with hj
                subst hj
                left
                simp
              · rw [if_neg hji] at hj
                right
                exact ⟨hji, r2, hj, rfl⟩
  next hget =>
    -- fresh entry
    have hfind := get_dir_entry_none st p n hget
    obtain ⟨st1, hins, h⟩ := except_bind_ok _ _ _ h
    obtain ⟨hpd, hpi, hst1⟩ := insertEntry_ok _ _ _ _ _ hins
    subst hst1
    obtain ⟨st1b, hinc, h⟩ := except_bind_ok _ _ _ h
    obtain ⟨ri, hri, hst1b⟩ := inc_nlink_ok _ _ _ hinc
    subst hst1b
    injection h with h
    injection h with h1 h2
    subst h1
    dsimp only at hri
    dsimp only
    have hrist : lookupA st.inodes i = some ri := hri
    have hcount := countTargets_insert_of_none st.entries p n i hfind
    have hlook : ∀ j, lookupA (updateA st.inodes i { ri with nlink := ri.nlink + 1 }) j =
        (if j = i then some { ri with nlink := ri.nlink + 1 }
         else lookupA st.inodes j) := by
      intro j
      by_cases hji : j = i
      · subst hji
        rw [if_pos rfl, lookupA_updateA_self, hrist]
        rfl
      · rw [if_neg hji, lookupA_updateA_ne _ _ _ _ hji]
    refine ⟨⟨?_, entKeys_insert_nodup _ _ _ _ hEnt, ?_, ?_, hRoot, ?_⟩, rfl, ?_⟩
    · rw [keys_updateA]
      exact hIno
    · intro q hq
      obtain ⟨q1, hq1, he1⟩ := updateA_fst_mem _ _ _ _ hq
      rw [he1]
      exact hLt q1 hq1
    · intro e2 he2
      rcases List.mem_append.mp he2 with h1 | h1
      · exact hTgt e2 (eraseEntry_subset _ _ _ _ h1)
      · rw [List.mem_singleton] at h1
        subst h1
        exact hLt _ (mem_of_lookupA _ _ _ hrist)
    · intro j r2 hj
      try dsimp only at hj ⊢
      rw [hlook j] at hj
      have hcj := hcount j
      by_cases hji : j = i
      · subst hji
        rw [if_pos rfl] at hj
        rw [if_pos rfl] at hcj
        injection hj with hj
        subst hj
        dsimp only
        have := hEq j ri hrist
        omega
      · rw [if_neg hji] at hj
        have := hEq j r2 hj
        have hii : ¬ i = j := fun hij => hji hij.symm
        rw [if_neg hii] at hcj
        omega
    · intro j r2 hj
      try dsimp only at hj ⊢
      rw [hlook j] at hj
      by_cases hji : j = i
      · rw [if_pos hji] at hj
        injection hj with hj
        subst hj
        left
        simp
      · rw [if_neg hji] at hj
        right
        exact ⟨hji, r2, hj, rfl⟩

theorem unlink_file_inv (st : SqlFs) (p : Nat) (n : String) (st2 : SqlFs)
    (hG : SqlGood st) (h : unlink_file st p n = .ok st2) :
    SqlGood st2 ∧ st2.nextIno = st.nextIno ∧
    (∀ j r2, lookupA st2.inodes j = some r2 →
      0 < r2.nlink ∨ (∃ r, lookupA st.inodes j = some r ∧ r2.nlink = r.nlink)) := by
  obtain ⟨hIno, hEnt, hLt, hTgt, hRoot, hEq⟩ := hG
  unfold unlink_file at h
  split at h
  next ti hget =>
    dsimp only at h
    split at h
    next hlen => exact absurd h (by simp)
    next hlen =>
      obtain ⟨e, hfe, hte, hme⟩ := get_dir_entry_some st p n ti hget
      obtain ⟨kp, hdec, h⟩ := except_bind_ok _ _ _ h
      obtain ⟨k, st3⟩ := kp
      obtain ⟨rt, hrt, hnz, hk, hst3⟩ := dec_nlink_ok _ _ _ _ hdec
      subst hst3
      dsimp only at hrt h
      have hrtst : lookupA st.inodes ti = some rt := hrt
      have hcount := countTargets_erase st.entries p n e hEnt hfe
      have hcpos : 0 < countTargets st.entries ti :=
        countTargets_pos st.entries e hme hte
      have hEnt2 : (entKeys (eraseEntry st.entries p n)).Nodup :=
        List.Nodup.sublist (entKeys_eraseEntry_sublist st.entries p n) hEnt
      by_cases hk0 : k = 0
      · rw [if_pos hk0] at h
        obtain ⟨hnoref, hst2⟩ := delete_inode_ok _ _ _ h
        subst hst2
        dsimp only
        have hlook : ∀ j, j ≠ ti →
            lookupA (eraseA (updateA st.inodes ti { rt with nlink := rt.nlink - 1 }) ti) j =
              lookupA st.inodes j := by
          intro j hjt
          rw [lookupA_eraseA_ne _ _ _ hjt, lookupA_updateA_ne _ _ _ _ hjt]
        refine ⟨⟨?_, hEnt2, ?_, ?_, hRoot, ?_⟩, rfl, ?_⟩
        · apply List.Nodup.sublist (keys_eraseA_sublist _ _)
          rw [keys_updateA]
          exact hIno
        · intro q hq
          obtain ⟨q1, hq1, he1⟩ := updateA_fst_mem _ _ _ _ (eraseA_subset _ _ _ hq)
          rw [he1]
          exact hLt q1 hq1
        · intro e2 he2
          exact hTgt e2 (eraseEntry_subset _ _ _ _ he2)
        · intro j r2 hj
          try dsimp only at hj ⊢
          by_cases hjt : j = ti
          · subst hjt
            rw [lookupA_eraseA_self] at hj
            exact absurd hj (by simp)
          · rw [hlook j hjt] at hj
            have := hEq j r2 hj
            have hcj := hcount j
            have hei : ¬ e.target = j := by rw [hte]; exact fun hpe => hjt hpe.symm
            rw [if_neg hei] at hcj
            omega
        · intro j r2 hj
          try dsimp only at hj ⊢
          by_cases hjt : j = ti
          · subst hjt
            rw [lookupA_eraseA_self] at hj
            exact absurd hj (by simp)
          · rw [hlook j hjt] at hj
            right
            exact ⟨r2, hj, rfl⟩
      · rw [if_neg hk0] at h
        injection h with h
        subst h
        dsimp only
        have hlook : ∀ j, lookupA (updateA st.inodes ti { rt with nlink := rt.nlink - 1 }) j =
            (if j = ti then some { rt with nlink := rt.nlink - 1 }
             else lookupA st.inodes j) := by
          intro j
          by_cases hjt : j = ti
          · subst hjt
            rw [if_pos rfl, lookupA_updateA_self, hrtst]
            rfl
          · rw [if_neg hjt, lookupA_updateA_ne _ _ _ _ hjt]
        refine ⟨⟨?_, hEnt2, ?_, ?_, hRoot, ?_⟩, rfl, ?_⟩
        · rw [keys_updateA]
          exact hIno
        · intro q hq
          obtain ⟨q1, hq1, he1⟩ := updateA_fst_mem _ _ _ _ hq
          rw [he1]
          exact hLt q1 hq1
        · intro e2 he2
          exact hTgt e2 (eraseEntry_subset _ _ _ _ he2)
        · intro j r2 hj
          try dsimp only at hj ⊢
          rw [hlook j] at hj
          have hcj := hcount j
          by_cases hjt : j = ti
          · subst hjt
            rw [if_pos rfl] at hj
            injection hj with hj
            subst hj
            dsimp only
            have := hEq j rt hrtst
            have hte2 : e.target = j := hte
            rw [if_pos hte2] at hcj
            omega
          · rw [if_neg hjt] at hj
            have := hEq j r2 hj
            have hei : ¬ e.target = j := by rw [hte]; exact fun hpe => hjt hpe.symm
            rw [if_neg hei] at hcj
            omega
        · intro j r2 hj
          try dsimp only at hj ⊢
          rw [hlook j] at hj
          by_cases hjt : j = ti
          · rw [if_pos hjt] at hj
            injection hj with hj
            subst hj
            left
            dsimp only
            omega
          · rw [if_neg hjt] at hj
            right
            exact ⟨r2, hj, rfl⟩
  next hget => exact absurd h (by simp)

theorem except_map_ok {ε α β : Type} (x : Except ε α) (f : α → β) (b : β)
    (h : x.map f = .ok b) : ∃ a, x = .ok a ∧ f a = b := by
  cases x with
  | error e => simp [Except.map] at h
  | ok a => exact ⟨a, rfl, by simpa [Except.map] using h⟩

theorem sql_set_attributes_inv (st : SqlFs) (ino : Nat) (attrs : SqlSetAttrs)
    (st2 : SqlFs) (r2 : SqlInode) (h : sql_set_attributes st ino attrs = .ok (st2, r2)) :
    ∃ r, lookupA st.inodes ino = some r ∧ r2.nlink = r.nlink ∧
      st2 = { st with inodes := updateA st.inodes ino r2 } := by
  unfold sql_set_attributes at h
  split at h
  next hl => exact absurd h (by simp)
  next r hl =>
    split at h
    next l hlen =>
      split at h
      next hty =>
        injection h with h
        injection h with h1 h2
        subst h2
        exact ⟨r, hl, rfl, h1.symm⟩
      next hty => exact absurd h (by simp)
    next hlen =>
      injection h with h
      injection h with h1 h2
      subst h2
      exact ⟨r, hl, rfl, h1.symm⟩

theorem update_length_at_least_inv (st : SqlFs) (ino len : Nat) (st2 : SqlFs)
    (h : update_length_at_least st ino len = .ok st2) :
    ∃ r, lookupA st.inodes ino = some r ∧
      st2 = { st with inodes := updateA st.inodes ino { r with length := max len r.length } } := by
  unfold update_length_at_least at h
  split at h
  next r hl =>
    split at h
    · exact ⟨r, hl, (Except.ok.inj h).symm⟩
    · exact absurd h (by simp)
  next hl => exact absurd h (by simp)

theorem good_update_same_nlink (st : SqlFs) (ino : Nat) (r r2 : SqlInode)
    (hG : SqlGood st) (hr : lookupA st.inodes ino = some r) (hn : r2.nlink = r.nlink) :
    SqlGood { st with inodes := updateA st.inodes ino r2 } ∧
    (∀ j q2, lookupA (updateA st.inodes ino r2) j = some q2 →
      ∃ q, lookupA st.inodes j = some q ∧ q2.nlink = q.nlink) := by
  obtain ⟨hIno, hEnt, hLt, hTgt, hRoot, hEq⟩ := hG
  have hlook : ∀ j, lookupA (updateA st.inodes ino r2) j =
      (if j = ino then some r2 else lookupA st.inodes j) := by
    intro j
    by_cases hji : j = ino
    · subst hji
      rw [if_pos rfl, lookupA_updateA_self, hr]
      rfl
    · rw [if_neg hji, lookupA_updateA_ne _ _ _ _ hji]
  constructor
  · refine ⟨?_, hEnt, ?_, hTgt, hRoot, ?_⟩
    · rw [keys_updateA]
      exact hIno
    · intro q hq
      obtain ⟨q1, hq1, he1⟩ := updateA_fst_mem _ _ _ _ hq
      rw [he1]
      exact hLt q1 hq1
    · intro j q2 hj
      try dsimp only at hj ⊢
      rw [hlook j] at hj
      by_cases hji : j = ino
      · rw [if_pos hji] at hj
        injection hj with hj
        subst hj
        rw [hn, hEq j r (hji ▸ hr)]
      · rw [if_neg hji] at hj
        exact hEq j q2 hj
  · intro j q2 hj
    rw [hlook j] at hj
    by_cases hji : j = ino
    · rw [if_pos hji] at hj
      injection hj with hj
      subst hj
      exact ⟨r, hji ▸ hr, hn⟩
    · rw [if_neg hji] at hj
      exact ⟨q2, hj, rfl⟩

theorem create_inode_good (st : SqlFs) (info : NewFileInfo) (hG : SqlGood st) :
    SqlGood (create_inode st info).1 := by
  obtain ⟨hIno, hEnt, hLt, hTgt, hRoot, hEq⟩ := hG
  obtain ⟨h1, h2, h3, hnone, hself, hother⟩ := create_inode_spec st info hLt
  dsimp only [create_inode] at hself hother ⊢
  refine ⟨?_, hEnt, ?_, ?_, ?_, ?_⟩
  · rw [List.map_append, List.nodup_append]
    refine ⟨hIno, by simp, ?_⟩
    intro a ha hb
    simp only [List.map_cons, List.map_nil, List.mem_singleton] at hb
    subst hb
    obtain ⟨q, hq, he⟩ := List.mem_map.mp ha
    exact absurd (he ▸ hLt q hq) (lt_irrefl _)
  · intro q hq
    rcases List.mem_append.mp hq with hq1 | hq1
    · exact Nat.lt_succ_of_lt (hLt q hq1)
    · rw [List.mem_singleton] at hq1
      subst hq1
      exact Nat.lt_succ_self _
  · intro e he
    exact Nat.lt_succ_of_lt (hTgt e he)
  · exact Nat.lt_succ_of_lt hRoot
  · intro j r hj
    try dsimp only at hj ⊢
    by_cases hji : j = st.nextIno
    · subst hji
      rw [hself] at hj
      injection hj with hj
      subst hj
      have hzero : countTargets st.entries st.nextIno = 0 :=
        countTargets_eq_zero _ _ (fun e he ht => absurd (ht ▸ hTgt e he) (lt_irrefl _))
      have hroot : ¬ st.nextIno = rootIno := fun hjr => absurd (hjr ▸ hRoot) (lt_irrefl _)
      show (0 : Nat) = countTargets st.entries st.nextIno +
        (if st.nextIno = rootIno then 1 else 0)
      rw [hzero, if_neg hroot]
    · rw [hother j hji] at hj
      exact hEq j r hj

theorem sqlApply_inv (st : SqlFs) (op : SqlOp) (st2 : SqlFs)
    (hInv : SqlInv st) (h : sqlApply st op = .ok st2) : SqlInv st2 := by
  obtain ⟨hG, hPos⟩ := hInv
  cases op with
  | createFile parent name exclusive info =>
    unfold sqlApply sqlCreateFile at h
    dsimp only at h
    obtain ⟨pr, hlink, h⟩ := except_bind_ok _ _ _ h
    obtain ⟨st3, bb⟩ := pr
    have h' : (Except.ok st3 : Except SqlErr SqlFs) = Except.ok st2 := h
    have h1 := Except.ok.inj h'
    subst h1
    have hGc := create_inode_good st info hG
    obtain ⟨hGl, hNl, hTl⟩ := link_file_inv _ _ _ _ _ _ _ hGc hlink
    refine ⟨hGl, ?_⟩
    intro j r2 hj hjr
    rcases hTl j r2 hj with hpos | ⟨hji, r, hr, he⟩
    · exact hpos
    · obtain ⟨h1', h2', h3', hnone, hself, hother⟩ :=
        create_inode_spec st info hG.2.2.1
      rw [h1'] at hji
      rw [hother j hji] at hr
      rw [he]
      exact hPos j r hr hjr
  | removeFile parent name =>
    unfold sqlApply sqlRemoveFile at h
    obtain ⟨hGu, hNu, hTu⟩ := unlink_file_inv _ _ _ _ hG h
    refine ⟨hGu, ?_⟩
    intro j r2 hj hjr
    rcases hTu j r2 hj with hpos | ⟨r, hr, he⟩
    · exact hpos
    · rw [he]
      exact hPos j r hr hjr
  | rename fd fn td tn =>
    unfold sqlApply sqlRename at h
    dsimp only at h
    split at h
    next hget => exact absurd h (by simp)
    next ino hget =>
      obtain ⟨r0, hstat, h⟩ := except_bind_ok _ _ _ h
      obtain ⟨pr, hlink, h⟩ := except_bind_ok _ _ _ h
      obtain ⟨stl, bb⟩ := pr
      obtain ⟨hGl, hNl, hTl⟩ := link_file_inv _ _ _ _ _ _ _ hG hlink
      obtain ⟨hGu, hNu, hTu⟩ := unlink_file_inv _ _ _ _ hGl h
      refine ⟨hGu, ?_⟩
      intro j r2 hj hjr
      rcases hTu j r2 hj with hpos | ⟨r, hr, he⟩
      · exact hpos
      · rcases hTl j r hr with hpos | ⟨hji, r', hr', he'⟩
        · rw [he]
          exact hpos
        · rw [he, he']
          exact hPos j r' hr' hjr
  | link ino dir name =>
    unfold sqlApply sqlLink at h
    obtain ⟨r0, hstat, h⟩ := except_bind_ok _ _ _ h
    obtain ⟨pr, hlink, h⟩ := except_bind_ok _ _ _ h
    obtain ⟨stl, bb⟩ := pr
    have h' : (Except.ok stl : Except SqlErr SqlFs) = Except.ok st2 := h
    have h1 := Except.ok.inj h'
    subst h1
    obtain ⟨hGl, hNl, hTl⟩ := link_file_inv _ _ _ _ _ _ _ hG hlink
    refine ⟨hGl, ?_⟩
    intro j r2 hj hjr
    rcases hTl j r2 hj with hpos | ⟨hji, r, hr, he⟩
    · exact hpos
    · rw [he]
      exact hPos j r hr hjr
  | setAttributes ino attrs =>
    unfold sqlApply at h
    obtain ⟨pr, hset, hmap⟩ := except_map_ok _ _ _ h
    obtain ⟨st3, r2⟩ := pr
    dsimp only at hmap
    subst hmap
    obtain ⟨r, hr, hn, hst3⟩ := sql_set_attributes_inv _ _ _ _ _ hset
    subst hst3
    obtain ⟨hGu, hTu⟩ := good_update_same_nlink st ino r r2 hG hr hn
    refine ⟨hGu, ?_⟩
    intro j q2 hj hjr
    obtain ⟨q, hq, he⟩ := hTu j q2 hj
    rw [he]
    exact hPos j q hq hjr
  | updateLengthAtLeast ino len =>
    unfold sqlApply at h
    obtain ⟨r, hr, hst2⟩ := update_length_at_least_inv _ _ _ _ h
    subst hst2
    obtain ⟨hGu, hTu⟩ := good_update_same_nlink st ino r { r with length := max len r.length } hG hr rfl
    refine ⟨hGu, ?_⟩
    intro j q2 hj hjr
    obtain ⟨q, hq, he⟩ := hTu j q2 hj
    rw [he]
    exact hPos j q hq hjr

theorem sqlStep_inv (st : SqlFs) (op : SqlOp) (h : SqlInv st) :
    SqlInv (sqlStep st op) := by
  unfold sqlStep
  cases happ : sqlApply st op with
  | ok st2 => exact sqlApply_inv st op st2 h happ
  | error e => exact h

theorem sqlInit_inv : SqlInv sqlInit := by
  constructor
  · refine ⟨by decide, by decide, ?_, by simp [sqlInit], by decide, ?_⟩
    · intro p hp
      rw [show sqlInit.inodes = [(rootIno, { ftype := .directory, perm := 448, uid := 0, gid := 0, nlink := 1, crtime := 0, mtime := 0, length := 0 })] from rfl, List.mem_singleton] at hp
      subst hp
      decide
    · intro i r hr
      by_cases hi : rootIno = i
      · subst hi
        have hr2 : r = { ftype := .directory, perm := 448, uid := 0, gid := 0, nlink := 1, crtime := 0, mtime := 0, length := 0 } := by
          rw [show lookupA sqlInit.inodes rootIno = some { ftype := .directory, perm := 448, uid := 0, gid := 0, nlink := 1, crtime := 0, mtime := 0, length := 0 } from rfl] at hr
          exact (Option.some.inj hr).symm
        subst hr2
        decide
      · rw [show sqlInit.inodes = [(rootIno, { ftype := .directory, perm := 448, uid := 0, gid := 0, nlink := 1, crtime := 0, mtime := 0, length := 0 })] from rfl, lookupA_cons, if_neg hi] at hr
        exact absurd hr (by simp [lookupA])
  · intro i r hr hi
    rw [show sqlInit.inodes = [(rootIno, { ftype := .directory, perm := 448, uid := 0, gid := 0, nlink := 1, crtime := 0, mtime := 0, length := 0 })] from rfl, lookupA_cons, if_neg (fun he => hi he.symm)] at hr
    exact absurd hr (by simp [lookupA])

theorem sqlRun_inv (st : SqlFs) (hInv : SqlInv st) :
    ∀ ops : List SqlOp, SqlInv (sqlRun st ops)
  | [] => hInv
  | op :: ops => sqlRun_inv (sqlStep st op) (sqlStep_inv st op hInv) ops

/-- C5 counterexample: in the catalog's initial state (after the empty
sequence of operations) the root inode is returned by `stat` with link
count 1, yet zero directory entries point at it — the `Root`-table
reference is not a directory entry — so "link count equals the number
of directory entries pointing to it" fails at the root. -/
theorem claim5_counterexample :
    sqlStat sqlInit rootIno = .ok { ftype := .directory, perm := 448, uid := 0, gid := 0, nlink := 1, crtime := 0, mtime := 0, length := 0 } ∧
    countRefs sqlInit rootIno = 0 ∧
    ({ ftype := .directory, perm := 448, uid := 0, gid := 0, nlink := 1, crtime := 0, mtime := 0, length := 0 } : SqlInode).nlink ≠ countRefs sqlInit rootIno := by
  exact ⟨rfl, rfl, by decide⟩

/-- C5 (amended): after any sequence of catalog operations run from
the freshly opened catalog, every inode returned by `stat` other than
the root has link count equal to the number of directory entries
pointing at it and that count is positive (an inode whose count
reaches 0 is destroyed in the same transaction); the root's link count
is one greater than its entry count (the `Root`-table reference); and
`stat` of any absent inode number fails `NoSuchInode`. -/
theorem claim5_link_count_invariant (ops : List SqlOp) :
    (∀ i r, sqlStat (sqlRun sqlInit ops) i = .ok r →
      (i ≠ rootIno → r.nlink = countRefs (sqlRun sqlInit ops) i ∧ 0 < r.nlink) ∧
      (i = rootIno → r.nlink = countRefs (sqlRun sqlInit ops) i + 1)) ∧
    (∀ i, lookupA (sqlRun sqlInit ops).inodes i = none →
      sqlStat (sqlRun sqlInit ops) i = .error .noSuchInode) := by
  obtain ⟨hG, hPos⟩ := sqlRun_inv sqlInit sqlInit_inv ops
  constructor
  · intro i r hr
    have hl : lookupA (sqlRun sqlInit ops).inodes i = some r := by
      unfold sqlStat at hr
      cases hx : lookupA (sqlRun sqlInit ops).inodes i with
      | some q =>
        rw [hx] at hr
        injection hr with hr
        rw [← hr]
      | none =>
        rw [hx] at hr
        exact absurd hr (by simp)
    have heq := hG.2.2.2.2.2 i r hl
    constructor
    · intro hir
      refine ⟨?_, hPos i r hl hir⟩
      rw [heq, if_neg hir]
      simp [countRefs]
    · intro hir
      rw [heq, if_pos hir]
      simp [countRefs]
  · intro i hnone
    unfold sqlStat
    rw [hnone]

/-- Witness for C5: one `create_file` under the root produces inode 2
with link count 1 and one entry pointing at it; stat of an unused
inode number fails. -/
theorem claim5_witness :
    ({ ftype := SqlFType.mutableRegular, perm := 420, uid := 0, gid := 0, nlink := 1, crtime := 0, mtime := 0, length := 0 } : SqlInode).nlink =
      countRefs (sqlRun sqlInit [SqlOp.createFile rootIno "a" true { ftype := .mutableRegular, perm := 420, uid := 0, gid := 0, length := 0 }]) 2 ∧
    (0 : Nat) < ({ ftype := SqlFType.mutableRegular, perm := 420, uid := 0, gid := 0, nlink := 1, crtime := 0, mtime := 0, length := 0 } : SqlInode).nlink ∧
    sqlStat (sqlRun sqlInit [SqlOp.createFile rootIno "a" true { ftype := .mutableRegular, perm := 420, uid := 0, gid := 0, length := 0 }]) 5 = .error .noSuchInode := by
  have h := claim5_link_count_invariant
    [SqlOp.createFile rootIno "a" true { ftype := .mutableRegular, perm := 420, uid := 0, gid := 0, length := 0 }]
  have h1 := (h.1 2
    { ftype := SqlFType.mutableRegular, perm := 420, uid := 0, gid := 0, nlink := 1, crtime := 0, mtime := 0, length := 0 }
    (by rfl)).1 (by decide)
  exact ⟨h1.1, h1.2, h.2 5 (by rfl)⟩
